import Mathlib

/-!
# Verification of the Zadig workflow-engine core

A shallow embedding, in Lean 4, of the parts of the Zadig CI/CD repository
that the specification's claims are about:

* the build-job compiler (`job_build.go`): `renderKeyVals`, `mergeRepos`,
  `renderRepos`, `SetPreset`, `ClearSelectionField`, `ToJobs`;
* the SQL job controller (`job_sql.go`): `Run` / `ExecMySQLStatement`;
* cronjob reconciliation (`UpdateCronjob`);
* the image-distribute job (`LintJob`, `GetOutPuts`) and the distribute step
  controller (`AfterRun`).

Go code is translated with value semantics: structs passed by pointer and
mutated in place are modelled as values returned by the translation, and the
external collaborators (document store, registries, the MySQL driver) are
modelled as explicit lookup environments passed in, with `Option`/`Except`
results for fallible lookups.  Machine integers are modelled as `Int`/`Nat`
(none of the embedded code relies on overflow).
-/

/-! ## String helpers

`strings.Join(xs, ".")`, `strings.SplitAfter(s, ";")` and `os.Expand` from the
Go standard library, on which the embedded functions rely. -/

/-- Go `strings.Join(parts, sep)`: the parts with the separator between
consecutive parts. -/
def joinSep (sep : String) : List String → String
  | [] => ""
  | [x] => x
  | x :: xs => x ++ sep ++ joinSep sep xs

/-- `strings.Join(parts, ".")`. -/
def joinDot (parts : List String) : String :=
  joinSep "." parts

/-- `strings.Join(parts, "/")`. -/
def joinSlash (parts : List String) : String :=
  joinSep "/" parts

/-- `strings.SplitAfter(s, ";")` on character lists: split after each
semicolon, keeping the separator at the end of each piece; the final piece
(possibly empty) carries no semicolon. -/
def splitAfterSemi : List Char → List (List Char)
  | [] => [[]]
  | c :: cs =>
    if c = ';' then
      [c] :: splitAfterSemi cs
    else
      match splitAfterSemi cs with
      | [] => [[c]]
      | s :: ss => (c :: s) :: ss

/-- `strings.SplitAfter(s, ";")`. -/
def splitAfterSemiS (s : String) : List String :=
  (splitAfterSemi s.data).map String.mk

/-! `os.Expand` (Go standard library `os/env.go`), used by `renderEnv`.
Go operates on bytes; we model ASCII-compatible behaviour on `Char`s. -/

/-- Go `os.isShellSpecialVar`. -/
def isShellSpecialVar (c : Char) : Bool :=
  c = Char.ofNat 42 || c = '#' || c = '$' || c = '@' || c = '!' || c = '?' || c = '-' ||
    (c.isDigit)

/-- Go `os.isAlphaNum` (for shell variable names). -/
def isShellAlphaNum (c : Char) : Bool :=
  c = '_' || c.isDigit || ('a' ≤ c && c ≤ 'z') || ('A' ≤ c && c ≤ 'Z')

/-- Longest leading run of shell-name characters, with the remainder. -/
def takeShellName : List Char → List Char × List Char
  | [] => ([], [])
  | c :: cs =>
    if isShellAlphaNum c then
      let (n, r) := takeShellName cs
      (c :: n, r)
    else
      ([], c :: cs)

theorem takeShellName_rest_le (l : List Char) :
    (takeShellName l).2.length ≤ l.length := by
  induction l with
  | nil => simp [takeShellName]
  | cons c cs ih =>
    simp only [takeShellName]
    by_cases h : isShellAlphaNum c = true
    · simp [h]; omega
    · simp [h]

/-- Scan to a closing brace: returns the chars before the brace and the rest
after it, or `none` when the brace never closes. -/
def scanBrace : List Char → Option (List Char × List Char)
  | [] => none
  | c :: cs =>
    if c = '}' then some ([], cs)
    else (scanBrace cs).map (fun p => (c :: p.1, p.2))

theorem scanBrace_rest_lt (l : List Char) (n r : List Char)
    (h : scanBrace l = some (n, r)) : r.length < l.length := by
  induction l generalizing n r with
  | nil => simp [scanBrace] at h
  | cons c cs ih =>
    simp only [scanBrace] at h
    by_cases hc : c = '}'
    · simp [hc] at h
      simp [← h.2]
    · rcases hs : scanBrace cs with _ | ⟨n2, r2⟩ <;> simp [hc, hs] at h
      have := ih n2 r2 hs
      rcases h with ⟨h1, h2⟩
      subst h2
      simp
      omega

/-- The brace-scan part of `getShellName`: name up to the closing `}`, or the
whole remainder as the name when the brace never closes. -/
def braceScan (cs : List Char) : List Char × List Char :=
  match scanBrace cs with
  | some (n, r) => (n, r)
  | none => (cs, [])

theorem braceScan_rest_le (cs : List Char) :
    (braceScan cs).2.length ≤ cs.length := by
  rw [braceScan]
  rcases hs : scanBrace cs with _ | ⟨n, r⟩
  · simp
  · have := scanBrace_rest_lt _ _ _ hs
    simp
    omega

/-- The `${...}` part of `getShellName`: a single special character directly
before the closing brace is its own name; otherwise scan to the brace. -/
def braceName (cs : List Char) : List Char × List Char :=
  match cs with
  | a :: '}' :: tail =>
    if isShellSpecialVar a then ([a], tail) else braceScan cs
  | _ => braceScan cs

theorem braceName_rest_le (cs : List Char) :
    (braceName cs).2.length ≤ cs.length := by
  rw [braceName.eq_def]
  split
  · split
    · simp
      omega
    · exact braceScan_rest_le _
  · exact braceScan_rest_le _

/-- Go `os.getShellName`: the variable name following a `$`, and the input
remaining after it.  Returns an empty name with the input unchanged when no
name starts here (the `$` is then kept literally). -/
def getShellName (l : List Char) : List Char × List Char :=
  match l with
  | [] => ([], [])
  | c :: cs =>
    if c = '{' then braceName cs
    else if isShellSpecialVar c then ([c], cs)
    else takeShellName (c :: cs)

theorem getShellName_rest_le (l : List Char) :
    (getShellName l).2.length ≤ l.length := by
  rw [getShellName.eq_def]
  split
  · simp
  · rename_i c cs
    split
    · have := braceName_rest_le cs
      simp
      omega
    · split
      · simp
      · exact takeShellName_rest_le _

/-- The scan loop of Go `os.Expand`, structurally recursive on a fuel that
bounds the number of scan steps (each step consumes at least one character,
so the input length is always enough fuel; `getShellName_rest_le`).  A `$`
starting a name is replaced together with the name by the mapping's value;
`${}` is bad syntax and is consumed silently; a `$` followed by no name (or
ending the input) is kept literally. -/
def osExpandGo (mapping : String → String) : Nat → List Char → List Char
  | _, [] => []
  | 0, l => l
  | fuel + 1, c :: cs =>
    if c = '$' ∧ cs ≠ [] then
      let p := getShellName cs
      if p.1.isEmpty then
        if p.2.length = cs.length then c :: osExpandGo mapping fuel cs
        else osExpandGo mapping fuel p.2
      else (mapping (String.mk p.1)).data ++ osExpandGo mapping fuel p.2
    else c :: osExpandGo mapping fuel cs

/-- Go `os.Expand(s, mapping)` on character lists. -/
def osExpand (mapping : String → String) (l : List Char) : List Char :=
  osExpandGo mapping l.length l

/-- Go `os.Expand` on strings. -/
def osExpandS (mapping : String → String) (s : String) : String :=
  String.mk (osExpand mapping s.data)

/-! ## Key-value and repository data (`commonmodels.KeyVal`, `types.Repository`)

`types.Repository` carries many fields; we embed the ones the translated
functions read or write (all others are carried along unchanged by the Go
code and are irrelevant to every claim). -/

/-- `commonmodels.KeyVal` (the fields `renderKeyVals` copies). -/
structure KeyVal where
  key : String
  value : String
  type_ : String
  isCredential : Bool
  choiceOption : List String
deriving DecidableEq, Repr

/-- `types.Repository` (the fields read or written by the embedded code). -/
structure Repository where
  source : String
  repoOwner : String
  repoNamespace : String
  repoName : String
  branch : String
  tag : String
  pr : Int
  prs : List Int
  filterRegexp : String
  checkoutPath : String
  remoteName : String
deriving DecidableEq, Repr

/-- `Repository.GetRepoNamespace`: the namespace, defaulting to the owner. -/
def Repository.getNamespace (r : Repository) : String :=
  if r.repoNamespace ≠ "" then r.repoNamespace else r.repoOwner

/-- The in-place defaulting `if repo.RepoNamespace == "" { repo.RepoNamespace
= repo.RepoOwner }` performed by `mergeRepos` on both lists. -/
def normalizeNamespace (r : Repository) : Repository :=
  if r.repoNamespace = "" then { r with repoNamespace := r.repoOwner } else r

/-- `renderEnv(data, kvs)` from `job_build.go`: `os.Expand` with a mapper that
returns the value of the first matching key, or `$name` for an unknown name. -/
def renderEnv (data : String) (kvs : List KeyVal) : String :=
  osExpandS
    (fun name =>
      match kvs.find? (fun kv => kv.key = name) with
      | some kv => kv.value
      | none => "$" ++ name)
    data

/-- The item `renderKeyVals` builds for one `origin` entry: its
`Key`/`Value`/`Type`/`IsCredential`/`ChoiceOption` copied, then `Value`
overwritten with each matching `input` entry's value in turn (so the last
match wins). -/
def renderKeyValEntry (input : List KeyVal) (originKV : KeyVal) : KeyVal :=
  match (input.filter (fun inputKV => originKV.key = inputKV.key)).getLast? with
  | some inputKV =>
    { key := originKV.key, value := inputKV.value, type_ := originKV.type_,
      isCredential := originKV.isCredential, choiceOption := originKV.choiceOption }
  | none =>
    { key := originKV.key, value := originKV.value, type_ := originKV.type_,
      isCredential := originKV.isCredential, choiceOption := originKV.choiceOption }

/-- `renderKeyVals(input, origin)` from `job_build.go`: one output item per
`origin` entry. -/
def renderKeyVals (input origin : List KeyVal) : List KeyVal :=
  origin.map (renderKeyValEntry input)

/-- The map key `strings.Join([source, namespace, repoName], "/")` used by
`mergeRepos`. -/
def repoMergeKey (r : Repository) : String :=
  joinSlash [r.source, r.repoNamespace, r.repoName]

/-- One template repo of `mergeRepos`: its namespace defaulted, then — when
a custom repo carries the same (source, namespace, repoName) key; later
entries overwrite earlier ones — `Branch`/`Tag`/`PR`/`PRs`/`FilterRegexp`
taken from that custom entry. -/
def mergeRepoEntry (customs : List Repository) (r0 : Repository) : Repository :=
  match (customs.filter (fun c =>
      repoMergeKey c = joinSlash [(normalizeNamespace r0).source,
        (normalizeNamespace r0).getNamespace,
        (normalizeNamespace r0).repoName])).getLast? with
  | some cv =>
    { normalizeNamespace r0 with
      branch := cv.branch, tag := cv.tag, pr := cv.pr, prs := cv.prs,
      filterRegexp := cv.filterRegexp }
  | none => normalizeNamespace r0

/-- `mergeRepos(templateRepos, customRepos)` from `job_build.go`: namespaces
are defaulted on both sides and each template repo takes the user-selection
fields from the matching custom entry; the (mutated) template list is
returned. -/
def mergeRepos (templateRepos customRepos : List Repository) : List Repository :=
  templateRepos.map (mergeRepoEntry (customRepos.map normalizeNamespace))

/-! ## `renderRepos` (`job_build.go`)

Go iterates over the canonical (`origin`) list, appending each entry to the
result, and for every user-input repo matching on (repoName, repoOwner)
mutates that input repo in place (env-render `CheckoutPath`, default
`RemoteName`) and overwrites the result slot with it; the mutated input list
is threaded through the iteration. -/

/-- The in-place update applied to a matching input repo: render
`CheckoutPath` against the env key-values and default `RemoteName`. -/
def renderReposProcess (kvs : List KeyVal) (r : Repository) : Repository :=
  let r1 := { r with checkoutPath := renderEnv r.checkoutPath kvs }
  if r1.remoteName = "" then { r1 with remoteName := "origin" } else r1

/-- One pass of the inner loop of `renderRepos`: walk the (mutable) input
list; each repo matching the origin entry on (repoName, repoOwner) is updated
in place, and the last match is what the result slot receives. -/
def renderReposInner (kvs : List KeyVal) (originRepo : Repository) :
    List Repository → List Repository × Option Repository
  | [] => ([], none)
  | inputRepo :: rest =>
    if originRepo.repoName = inputRepo.repoName ∧
        originRepo.repoOwner = inputRepo.repoOwner then
      let upd := renderReposProcess kvs inputRepo
      let acc := renderReposInner kvs originRepo rest
      (upd :: acc.1, match acc.2 with | some r => some r | none => some upd)
    else
      let acc := renderReposInner kvs originRepo rest
      (inputRepo :: acc.1, acc.2)

/-- The outer loop of `renderRepos`: each result slot starts as the origin
entry and is overwritten by the last matching input repo; the mutated input
list is threaded on to the next iteration. -/
def renderReposGo (kvs : List KeyVal) (inputState : List Repository) :
    List Repository → List Repository
  | [] => []
  | originRepo :: os =>
    let st := renderReposInner kvs originRepo inputState
    match st.2 with
    | some r => r :: renderReposGo kvs st.1 os
    | none => originRepo :: renderReposGo kvs st.1 os

/-- `renderRepos(input, origin, kvs)` from `job_build.go`. -/
def renderRepos (input origin : List Repository) (kvs : List KeyVal) : List Repository :=
  renderReposGo kvs input origin

/-! ## The build-job compiler data model (`job_build.go`)

The document store, template catalog, registry list and cluster store that
`SetPreset`/`ToJobs` consult are external collaborators; they are modelled as
an explicit read-only `Catalog` of lookup functions.  `MergeBuildEnvs`
(defined in the `commonservice` package, outside the embedded sources) is a
field of the catalog as well, so every theorem below holds for an arbitrary
such merge function. -/

/-- `commonmodels.Output`. -/
structure Output where
  name : String
deriving DecidableEq, Repr

/-- A service container (`service.Containers` entries; fields used). -/
structure Container where
  name : String
  imageName : String
deriving DecidableEq, Repr

/-- A max-revision service as returned by `GetMaxRevisionsServicesMap`. -/
structure ServiceInfo where
  serviceName : String
  containers : List Container
deriving DecidableEq, Repr

/-- A per-service-module build target (`buildInfo.Targets` entries; fields
used: the service key, repos and envs). -/
structure BuildTarget where
  serviceName : String
  serviceModule : String
  repos : List Repository
  envs : List KeyVal
deriving DecidableEq, Repr

/-- `commonmodels.PreBuild` (fields used by the embedded code). -/
structure PreBuild where
  imageID : String
  clusterID : String
  envs : List KeyVal
deriving DecidableEq, Repr

/-- `PostBuild.ObjectStorageUpload` (fields that decide control flow). -/
structure ObjectStorageUpload where
  enabled : Bool
  objectStorageID : String
deriving DecidableEq, Repr

/-- `commonmodels.PostBuild`; only the object-storage upload introduces a
failure path in `ToJobs`, the docker-build/file-archive parts feed only the
elided step construction. -/
structure PostBuild where
  objectStorageUpload : Option ObjectStorageUpload
deriving DecidableEq, Repr

/-- `commonmodels.Build` (fields read by the embedded code; fields such as
`Scripts`, `ScriptType`, `SSHs` or `VMLabels` feed only the elided step
construction and are omitted). -/
structure Build where
  templateID : String
  timeout : Int
  preBuild : PreBuild
  postBuild : Option PostBuild
  repos : List Repository
  targets : List BuildTarget
  outputs : List Output
  infrastructure : String
  cacheEnable : Bool
  cacheDirType : String
  cacheUserDir : String
deriving DecidableEq, Repr

/-- `commonmodels.BuildTemplate` (the fields `fillBuildDetail` copies and that
the embedded code later reads). -/
structure BuildTemplate where
  timeout : Int
  preBuild : PreBuild
  postBuild : Option PostBuild
  outputs : List Output
  infrastructure : String
  cacheEnable : Bool
  cacheDirType : String
  cacheUserDir : String
deriving DecidableEq, Repr

/-- `commonmodels.RegistryNamespace` (fields used). -/
structure RegistryNamespace where
  regAddr : String
  regNamespace : String
  accessKey : String
  secretKey : String
deriving DecidableEq, Repr

/-- `commonmodels.S3Storage` (content feeds only elided steps). -/
structure S3Storage where
  ak : String
  sk : String
  endpoint : String
  bucket : String
deriving DecidableEq, Repr

/-- A cluster's cache settings (`clusterInfo.Cache`; fields that decide
control flow in `ToJobs`). -/
structure ClusterCache where
  mediumType : String
  objectID : String
deriving DecidableEq, Repr

/-- `commonmodels.K8SCluster` (fields used). -/
structure K8sCluster where
  cache : ClusterCache
deriving DecidableEq, Repr

/-- `commonmodels.ServiceAndBuild`: one selected (service, module) pair of a
build job spec, with its build reference and user-adjustable inputs. -/
structure ServiceAndBuild where
  serviceName : String
  serviceModule : String
  buildName : String
  imageName : String
  image : String
  packageFile : String
  keyVals : List KeyVal
  repos : List Repository
deriving DecidableEq, Repr

/-- `commonmodels.ZadigBuildJobSpec` (fields used by the embedded code). -/
structure BuildJobSpec where
  dockerRegistryID : String
  serviceAndBuilds : List ServiceAndBuild
deriving DecidableEq, Repr

/-- The read-only environment of external lookups consulted by the build-job
compiler.  `servicesMap` is `none` when `GetMaxRevisionsServicesMap` fails. -/
structure Catalog where
  findRegistry : String → Option RegistryNamespace
  defaultS3 : Option S3Storage
  findBuild : String → Option Build
  findBuildTemplate : String → Option BuildTemplate
  findBasicImage : String → Option String
  listRegistries : Option (List RegistryNamespace)
  findCluster : String → Option K8sCluster
  findS3 : String → Option S3Storage
  servicesMap : Option (String → Option ServiceInfo)
  mergeBuildEnvs : List KeyVal → List KeyVal → List KeyVal

/-- `fillBuildDetail(moduleBuild, serviceName, serviceModule)` from
`job_build.go`: a build created from a template takes the template's
configuration, and its repos/envs come from the matching per-service target
(envs merged via `commonservice.MergeBuildEnvs`). -/
def fillBuildDetail (cat : Catalog) (moduleBuild : Build)
    (serviceName serviceModule : String) : Except String Build :=
  if moduleBuild.templateID = "" then .ok moduleBuild
  else
    match cat.findBuildTemplate moduleBuild.templateID with
    | none => .error ("failed to find build template with id: " ++ moduleBuild.templateID)
    | some bt =>
      let b : Build :=
        { moduleBuild with
          timeout := bt.timeout, preBuild := bt.preBuild, postBuild := bt.postBuild,
          cacheEnable := bt.cacheEnable, cacheDirType := bt.cacheDirType,
          cacheUserDir := bt.cacheUserDir, outputs := bt.outputs,
          infrastructure := bt.infrastructure }
      match b.targets.find? (fun t =>
          t.serviceName = serviceName ∧ t.serviceModule = serviceModule) with
      | some t =>
        Except.ok
          { b with
            repos := t.repos,
            preBuild := { b.preBuild with
                          envs := cat.mergeBuildEnvs b.preBuild.envs t.envs } }
      | none => .ok b

/-- `ensureBuildInOutputs`: append the implicit `IMAGE`, `imageTag` and
`PKG_FILE` outputs when the declared outputs do not already contain them. -/
def ensureBuildInOutputs (outputs : List Output) : List Output :=
  let has := fun (k : String) => outputs.any (fun o => o.name = k)
  outputs
    ++ (if has "IMAGE" then [] else [{ name := "IMAGE" }])
    ++ (if has "imageTag" then [] else [{ name := "imageTag" }])
    ++ (if has "PKG_FILE" then [] else [{ name := "PKG_FILE" }])

/-! ## `SetPreset`, `ClearSelectionField` and `ToJobs` (`job_build.go`)

`SetPreset` walks the selected (service, module) pairs, refreshing each entry
against the catalog; an entry whose build, build template or service cannot
be resolved is skipped (dropped from the selection), matching the
`continue`-on-error loops of the source.  The in-call memoization of build /
template lookups (`buildMap`, `buildTemplateMap`) caches the deterministic
catalog lookups and is modelled by the lookups themselves; the struct
pointers it shares are modelled with value semantics. -/

/-- The repo/key-value refresh `SetPreset` applies when the effective build
has a target for the entry's (service, module): template repos merged with
the entry's repos, template envs rendered with the entry's values. -/
def presetMerge (buildInfo : Build) (build : ServiceAndBuild) : ServiceAndBuild :=
  if buildInfo.targets.any (fun t =>
      t.serviceName = build.serviceName ∧ t.serviceModule = build.serviceModule) then
    { build with
      repos := mergeRepos buildInfo.repos build.repos,
      keyVals := renderKeyVals build.keyVals buildInfo.preBuild.envs }
  else build

/-- The image name `SetPreset` resolves for an entry: defaulted to the
service module, then taken from the matching container when one exists. -/
def resolvedImageName (svc : ServiceInfo) (serviceModule : String) : String :=
  match svc.containers.find? (fun c => c.name = serviceModule) with
  | some container => container.imageName
  | none => serviceModule

/-- The service-map step of `SetPreset`: an entry whose service is unknown is
skipped, otherwise its image name is resolved. -/
def presetImageName (smap : String → Option ServiceInfo)
    (build : ServiceAndBuild) : Option ServiceAndBuild :=
  match smap build.serviceName with
  | none => none
  | some svc => some { build with imageName := resolvedImageName svc build.serviceModule }

/-- The loop body of `SetPreset` for one selected entry; `none` means the
entry is skipped (`continue` in the source). -/
def setPresetEntry (cat : Catalog) (smap : String → Option ServiceInfo)
    (build : ServiceAndBuild) : Option ServiceAndBuild :=
  match cat.findBuild build.buildName with
  | none => none
  | some buildInfo0 =>
    match fillBuildDetail cat buildInfo0 build.serviceName build.serviceModule with
    | .error _ => none
    | .ok buildInfo => presetImageName smap (presetMerge buildInfo build)

/-- `BuildJob.SetPreset`: refresh every selected entry against the catalog;
fails only when the services map cannot be fetched. -/
def setPreset (cat : Catalog) (spec : BuildJobSpec) : Except String BuildJobSpec :=
  match cat.servicesMap with
  | none => .error "get services map error"
  | some smap =>
    .ok { spec with serviceAndBuilds := spec.serviceAndBuilds.filterMap (setPresetEntry cat smap) }

/-- `BuildJob.ClearSelectionField`: clear the selection — unless it has
exactly one entry, which the source keeps. -/
def clearSelectionField (spec : BuildJobSpec) : BuildJobSpec :=
  if spec.serviceAndBuilds.length ≠ 1 then { spec with serviceAndBuilds := [] } else spec

/-- `config.JobZadigBuild` (an external constant; its value is opaque to the
embedded code). -/
def jobZadigBuild : String := "zadig-build"

/-- `setting.JobVMInfrastructure` (external constant). -/
def jobVMInfrastructure : String := "vm"

/-- `types.ObjectMedium` (external constant). -/
def objectMedium : String := "object"

/-- The claim-relevant projection of a compiled `commonmodels.JobTask`: its
identity (`JobInfo`, `Key`, `JobType`) and scheduling attributes.  The
`Steps`/`Properties` construction of `ToJobs` (scripts, cache and archive
steps, image names) is elided: it affects no claim.  -/
structure CompiledJobTask where
  serviceName : String
  serviceModule : String
  jobName : String
  key : String
  jobType : String
  timeout : Int
  outputs : List Output
  infrastructure : String
deriving DecidableEq, Repr

/-- The object-storage-upload lookup of `ToJobs`'s post-build step
construction — its only failure path. -/
def checkPostBuild (cat : Catalog) (buildInfo : Build) (task : CompiledJobTask) :
    Except String CompiledJobTask :=
  match buildInfo.postBuild with
  | some pb =>
    match pb.objectStorageUpload with
    | some osu =>
      if osu.enabled then
        match cat.findS3 osu.objectStorageID with
        | none => .error "find object storage failed"
        | some _ => .ok task
      else .ok task
    | none => .ok task
  | none => .ok task

/-- The `JobTask` (claim-relevant fields) `ToJobs` builds for one selected
entry.  The task `Key` is
`strings.Join([jobName, serviceName, serviceModule], ".")`. -/
def mkBuildJobTask (jobName : String) (build : ServiceAndBuild)
    (buildInfo : Build) : CompiledJobTask :=
  { serviceName := build.serviceName, serviceModule := build.serviceModule,
    jobName := jobName,
    key := joinDot [jobName, build.serviceName, build.serviceModule],
    jobType := jobZadigBuild, timeout := buildInfo.timeout,
    outputs := ensureBuildInOutputs buildInfo.outputs,
    infrastructure := buildInfo.infrastructure }

/-- The cache flag of the k8s path of `ToJobs`: disabled when the cluster
declares no cache medium, otherwise taken from the build. -/
def effectiveCacheEnable (clusterInfo : K8sCluster) (buildInfo : Build) : Bool :=
  if clusterInfo.cache.mediumType = "" then false else buildInfo.cacheEnable

/-- The loop body of `ToJobs` for one selected entry.  Unlike `SetPreset`,
every lookup failure aborts the whole compilation. -/
def toJobsEntry (cat : Catalog) (jobName : String) (build : ServiceAndBuild) :
    Except String CompiledJobTask :=
  match cat.findBuild build.buildName with
  | none => .error ("find build: " ++ build.buildName ++ " error")
  | some buildInfo0 =>
    match fillBuildDetail cat buildInfo0 build.serviceName build.serviceModule with
    | .error e => .error e
    | .ok buildInfo =>
      match cat.findBasicImage buildInfo.preBuild.imageID with
      | none => .error ("find base image: " ++ buildInfo.preBuild.imageID ++ " error")
      | some _basicImageValue =>
        match cat.listRegistries with
        | none => .error "list registry namespaces error"
        | some _registries =>
          if buildInfo.infrastructure = jobVMInfrastructure then
            checkPostBuild cat buildInfo (mkBuildJobTask jobName build buildInfo)
          else
            match cat.findCluster buildInfo.preBuild.clusterID with
            | none => .error ("find cluster: " ++ buildInfo.preBuild.clusterID ++ " error")
            | some clusterInfo =>
              if effectiveCacheEnable clusterInfo buildInfo ∧
                  clusterInfo.cache.mediumType = objectMedium then
                match cat.findS3 clusterInfo.cache.objectID with
                | none => .error "find cache s3 storage error"
                | some _ => checkPostBuild cat buildInfo (mkBuildJobTask jobName build buildInfo)
              else checkPostBuild cat buildInfo (mkBuildJobTask jobName build buildInfo)

/-- The per-entry loop of `ToJobs`, aborting on the first failing entry. -/
def toJobsLoop (cat : Catalog) (jobName : String) :
    List ServiceAndBuild → Except String (List CompiledJobTask)
  | [] => .ok []
  | b :: bs =>
    match toJobsEntry cat jobName b with
    | .error e => .error e
    | .ok t =>
      match toJobsLoop cat jobName bs with
      | .error e => .error e
      | .ok ts => .ok (t :: ts)

/-- `BuildJob.ToJobs(taskID)`: resolve the registry and default object store,
then emit one `JobTask` per selected (service, module) pair.  (The `taskID`
enters only the elided image-tag/step fields, not the task identity.) -/
def toJobs (cat : Catalog) (jobName : String) (spec : BuildJobSpec) :
    Except String (List CompiledJobTask) :=
  match cat.findRegistry spec.dockerRegistryID with
  | none => .error ("find docker registry: " ++ spec.dockerRegistryID ++ " error")
  | some _registry =>
    match cat.defaultS3 with
    | none => .error "find default s3 storage error"
    | some _ => toJobsLoop cat jobName spec.serviceAndBuilds

/-! ## The SQL job controller (`job_sql.go`)

`SQLJobCtl.Run` / `ExecMySQLStatement`.  The MySQL driver is an external
collaborator: a database handle is an oracle mapping a statement to its
outcome — execution failure, or success with an elapsed time and either the
affected row count or a `RowsAffected()` error.  `logError` (a package helper
outside the embedded sources) records, per the spec's §7, the message in the
job's `error` field and sets status `Failed`. -/

/-- The `setting.SQLExecStatus*` constants. -/
inductive SQLExecStatus where
  | notExecuted
  | success
  | failed
deriving DecidableEq, Repr

/-- `commonmodels.SQLExecResult` (fields used; Go zero values for the
not-yet-written numeric fields). -/
structure SQLExecResult where
  sql : String
  status : SQLExecStatus
  elapsedTime : Int
  rowsAffected : Int
deriving DecidableEq, Repr

/-- The outcome of `db.Exec` on one statement: failure, or success with the
elapsed milliseconds and `RowsAffected()` (which may itself fail: `none`). -/
inductive DBResp where
  | execFail
  | execOk (elapsed : Int) (rows : Option Int)
deriving DecidableEq, Repr

/-- A database handle: the driver's response per statement text. -/
def DBConn : Type := String → DBResp

/-- `commonmodels.DBInstance` (fields used). -/
structure DBInstance where
  dbType : String
deriving DecidableEq, Repr

/-- `config.DBInstanceTypeMySQL` (external constant). -/
def dbTypeMySQL : String := "mysql"

/-- `config.DBInstanceTypeMariaDB` (external constant). -/
def dbTypeMariaDB : String := "mariadb"

/-- The `config.Status*` values a SQL job can reach. -/
inductive JobStatus where
  | running
  | passed
  | failed
deriving DecidableEq, Repr

/-- Leading-whitespace removal, for the model of `strings.TrimSpace`. -/
def dropLeadingSpace : List Char → List Char
  | [] => []
  | c :: cs => if c.isWhitespace then dropLeadingSpace cs else c :: cs

/-- Go `strings.TrimSpace` (whitespace stripped from both ends). -/
def trimSpace (s : String) : String :=
  String.mk ((dropLeadingSpace (dropLeadingSpace s.data).reverse).reverse)

/-- The pre-creation loop of `ExecMySQLStatement`: one not-executed result —
with the statement trimmed — per non-empty piece of the SQL text split after
each `;`. -/
def preCreateResults (sqlText : String) : List SQLExecResult :=
  ((splitAfterSemiS sqlText).filter (fun s => s ≠ "")).map
    (fun s => { sql := trimSpace s, status := SQLExecStatus.notExecuted,
                elapsedTime := 0, rowsAffected := 0 })

/-- The execution loop of `ExecMySQLStatement` over the pre-created results:
statements run in order; the first failure marks its entry failed and aborts,
leaving later entries untouched.  Returns the updated results, the error (if
any), and — as an observation of the interaction with the driver — the list
of statements actually handed to `db.Exec`, in order. -/
def execLoop (db : DBConn) : List SQLExecResult →
    List SQLExecResult × Option String × List String
  | [] => ([], none, [])
  | r :: rest =>
    match db r.sql with
    | DBResp.execFail =>
      ({ r with status := SQLExecStatus.failed } :: rest,
       some ("exec SQL \x22" ++ r.sql ++ "\x22 error"), [r.sql])
    | DBResp.execOk elapsed rows =>
      let r1 := { r with status := SQLExecStatus.success, elapsedTime := elapsed }
      match rows with
      | none => (r1 :: rest, some "get affect rows error", [r.sql])
      | some n =>
        let r2 := { r1 with rowsAffected := n }
        let (rest2, err, sent) := execLoop db rest
        (r2 :: rest2, err, r.sql :: sent)

/-- `SQLJobCtl.ExecMySQLStatement` given an opened handle: pre-create all
result entries, then execute them in order. -/
def execMySQLStatement (db : DBConn) (sqlText : String) :
    List SQLExecResult × Option String × List String :=
  execLoop db (preCreateResults sqlText)

/-- The observable job state `SQLJobCtl.Run` leaves behind. -/
structure SQLJobState where
  status : JobStatus
  error : String
  results : List SQLExecResult
deriving DecidableEq, Repr

/-- The external collaborators of a SQL job: the DB-instance store and the
driver (`sql.Open`, which may fail). -/
structure SQLEnv where
  findDBInstance : String → Option DBInstance
  openDB : DBInstance → Option DBConn

/-- `SQLJobCtl.Run`: resolve the instance, check its type, execute the
statements; any error is recorded via `logError` (status `Failed`), otherwise
the job passes. -/
def sqlRun (env : SQLEnv) (instanceID : String) (sqlText : String) : SQLJobState :=
  match env.findDBInstance instanceID with
  | none =>
    { status := JobStatus.failed, error := "find db instance error", results := [] }
  | some info =>
    if info.dbType = dbTypeMySQL ∨ info.dbType = dbTypeMariaDB then
      match env.openDB info with
      | none =>
        { status := JobStatus.failed, error := "connect db error", results := [] }
      | some db =>
        match execMySQLStatement db sqlText with
        | (results, some e, _) =>
          { status := JobStatus.failed, error := e, results := results }
        | (results, none, _) =>
          { status := JobStatus.passed, error := "", results := results }
    else
      { status := JobStatus.failed, error := "invalid db type", results := [] }

/-! ## Cronjob reconciliation (`UpdateCronjob`)

The `Cronjob` collection is an external document store; it is modelled as a
list of records plus a fresh-ID counter (document IDs are modelled as `Nat`,
with `0` playing the role of the zero `ObjectID`). -/

/-- `commonmodels.Cronjob` (the fields `UpdateCronjob` writes). -/
structure Cronjob where
  id : Nat
  name : String
  parentType : String
  number : Int
  frequency : String
  time : String
  cron : String
  maxFailure : Int
  taskArgs : String
  workflowArgs : String
  testArgs : String
  jobType : String
  enabled : Bool
  productName : String
deriving DecidableEq, Repr

/-- One submitted schedule item (`schedule.Items` entries; `id = 0` models a
zero `ObjectID`). -/
structure ScheduleItem where
  id : Nat
  number : Int
  frequency : String
  time : String
  cron : String
  maxFailures : Int
  taskArgs : String
  workflowArgs : String
  testArgs : String
  itemType : String
deriving DecidableEq, Repr

/-- `setting.TestingCronjob` (external constant). -/
def testingCronjob : String := "test"

/-- The `commonmodels.Cronjob` record `UpdateCronjob` builds from one
submitted schedule item (before any ID is assigned).  `ProductName` is set
only for testing cronjobs, in both the update and the create branch. -/
def renderCronjob (parentName parentType productName : String)
    (t : ScheduleItem) : Cronjob :=
  { id := 0, name := parentName, parentType := parentType,
    number := t.number, frequency := t.frequency, time := t.time, cron := t.cron,
    maxFailure := t.maxFailures, taskArgs := t.taskArgs,
    workflowArgs := t.workflowArgs, testArgs := t.testArgs,
    jobType := t.itemType, enabled := true,
    productName := if parentType = testingCronjob then productName else "" }

/-- The external cronjob collection: stored records plus a supply of fresh
document IDs. -/
structure CronStore where
  records : List Cronjob
  nextID : Nat
deriving DecidableEq, Repr

/-- `CronjobColl.List` by parent name and type. -/
def listCron (st : CronStore) (parentName parentType : String) : List Cronjob :=
  st.records.filter (fun r => r.name = parentName ∧ r.parentType = parentType)

/-- `CronjobColl.Update`: replace the record carrying the given ID. -/
def updateCron (st : CronStore) (job : Cronjob) : CronStore :=
  { st with records := st.records.map (fun r => if r.id = job.id then job else r) }

/-- `CronjobColl.Create`: insert with a fresh document ID. -/
def createCron (st : CronStore) (job : Cronjob) : CronStore :=
  { records := st.records ++ [{ job with id := st.nextID }], nextID := st.nextID + 1 }

/-- `CronjobColl.Delete` by ID list. -/
def deleteCron (st : CronStore) (ids : List Nat) : CronStore :=
  { st with records := st.records.filter (fun r => r.id ∉ ids) }

/-- One iteration of `UpdateCronjob`'s reconciliation loop: a submitted item
with a non-zero ID updates that record in place and claims its ID from the
candidate-delete set; an item without an ID creates a new record. -/
def updateCronjobStep (parentName parentType productName : String)
    (acc : List Nat × CronStore) (t : ScheduleItem) : List Nat × CronStore :=
  let job := renderCronjob parentName parentType productName t
  if t.id ≠ 0 then
    (acc.1.erase t.id, updateCron acc.2 { job with id := t.id })
  else
    (acc.1, createCron acc.2 job)

/-- The reconciliation loop of `UpdateCronjob`: fold the submitted items over
the candidate-delete ID set (initially all stored records of the parent) and
the store. -/
def updateCronjobFold (parentName parentType productName : String)
    (schedule : List ScheduleItem) (st : CronStore) : List Nat × CronStore :=
  schedule.foldl (updateCronjobStep parentName parentType productName)
    ((listCron st parentName parentType).map (fun r => r.id), st)

/-- `UpdateCronjob(parentName, parentType, productName, schedule)`: list the
stored records for the parent, reconcile the submitted items against them,
delete every stored record not claimed by a submitted ID, and return the
deleted IDs. -/
def updateCronjob (parentName parentType productName : String)
    (schedule : List ScheduleItem) (st : CronStore) : List Nat × CronStore :=
  ((updateCronjobFold parentName parentType productName schedule st).1,
   deleteCron (updateCronjobFold parentName parentType productName schedule st).2
     (updateCronjobFold parentName parentType productName schedule st).1)

/-! ## The image-distribute job (`ImageDistributeJob`) and distribute step

`LintJob` and `GetOutPuts` are embedded from the source; the package helpers
they call — `getJobRankMap`, `getOutputKey`, `job.GetJobOutputKey` — and the
task context's `GlobalContextSet` are repository code not among the embedded
sources, so they are modelled from the spec (see their doc comments). -/

/-- A job of a workflow stage (`commonmodels.Job`; fields lint reads). -/
structure WorkflowJob where
  name : String
  jobType : String
deriving DecidableEq, Repr

/-- `commonmodels.WorkflowStage` (fields used). -/
structure WorkflowStage where
  name : String
  jobs : List WorkflowJob
deriving DecidableEq, Repr

/-- All job names of a workflow in stage-major declaration order. -/
def allJobNames (stages : List WorkflowStage) : List String :=
  stages.flatMap (fun st => st.jobs.map (fun j => j.name))

/-- Rank bindings for a job-name list, starting at a given rank. -/
def rankBindings (n : Nat) : List String → List (String × Nat)
  | [] => []
  | j :: js => (j, n) :: rankBindings (n + 1) js

/-- Modelled from the spec: `getJobRankMap` is repository code not among the
embedded sources.  §4.1 says lint checks that a "from-job" source references
"a job earlier in the stage order — computed via a rank map over stage
position", and §8 that "referencing a job earlier in the same stage or an
earlier stage succeeds"; accordingly each job is ranked by its position in
stage-major declaration order. -/
def getJobRankMap (stages : List WorkflowStage) : List (String × Nat) :=
  rankBindings 0 (allJobNames stages)

/-- Go map lookup over the rank bindings (later insertions win). -/
def rankOf (m : List (String × Nat)) (k : String) : Option Nat :=
  (m.reverse.find? (fun p => p.1 = k)).map (fun p => p.2)

/-- `commonmodels.DistributeTarget` (fields used by the embedded code). -/
structure DistributeTarget where
  serviceName : String
  serviceModule : String
  imageName : String
  sourceTag : String
  targetTag : String
  updateTag : Bool
  sourceImage : String
  targetImage : String
deriving DecidableEq, Repr

/-- `commonmodels.ZadigDistributeImageJobSpec` (fields used). -/
structure DistributeImageJobSpec where
  source : String
  jobName : String
  targets : List DistributeTarget
deriving DecidableEq, Repr

/-- `config.SourceFromJob` (external constant). -/
def sourceFromJob : String := "fromjob"

/-- `ImageDistributeJob.LintJob`: nothing to check unless the source is
"from-job"; then the referenced job must have a strictly smaller rank than
this job, and a missing rank entry (Go's zero-value map read for the
referencing job, absent `ok` for the referenced one) fails the lint. -/
def lintImageDistributeJob (stages : List WorkflowStage) (selfName : String)
    (spec : DistributeImageJobSpec) : Except String Unit :=
  if spec.source ≠ sourceFromJob then .ok ()
  else
    match rankOf (getJobRankMap stages) spec.jobName with
    | none => .error ("can not quote job " ++ spec.jobName ++ " in job " ++ selfName)
    | some buildJobRank =>
      if buildJobRank ≥ (rankOf (getJobRankMap stages) selfName).getD 0 then
        .error ("can not quote job " ++ spec.jobName ++ " in job " ++ selfName)
      else .ok ()

/-- Modelled from the spec: `job.GetJobOutputKey` is repository code not
among the embedded sources.  §3 (Output) says a produced value is resolved
into `globalContext` under the key `"{jobKey}.{outputName}"`. -/
def getJobOutputKey (jobKey outputName : String) : String :=
  jobKey ++ "." ++ outputName

/-- Modelled from the spec: `getOutputKey` is repository code not among the
embedded sources; per its uses and §3 it maps each declared output to its
job-output key. -/
def getOutputKey (jobKey : String) (outputs : List Output) : List String :=
  outputs.map (fun o => getJobOutputKey jobKey o.name)

/-- `ImageDistributeJob.GetOutPuts`: one `IMAGE` output key per configured
target, keyed by `jobName.serviceName.serviceModule`. -/
def distributeGetOutPuts (jobName : String) (spec : DistributeImageJobSpec) :
    List String :=
  spec.targets.flatMap (fun target =>
    getOutputKey (joinDot [jobName, target.serviceName, target.serviceModule])
      [{ name := "IMAGE" }])

/-- `step.DistributeTaskTarget` of the distribute step spec (fields used by
`AfterRun`). -/
structure StepDistributeTarget where
  serviceName : String
  serviceModule : String
  targetImage : String
deriving DecidableEq, Repr

/-- The shared output store `globalContext` (spec §3: a string-to-string
map). -/
def GlobalContext : Type := String → Option String

/-- Modelled from the spec: `WorkflowTaskCtx.GlobalContextSet` is repository
code not among the embedded sources; §3 and §9 describe `globalContext` as a
key-value store with overwriting `set(key, value)`. -/
def globalContextSet (ctx : GlobalContext) (key value : String) : GlobalContext :=
  fun q => if q = key then some value else ctx q

/-- The `IMAGE` output key `AfterRun` uses for one distribute target:
the job-output key of `jobName.serviceName.serviceModule`. -/
def stepTargetKey (jobName : String) (t : StepDistributeTarget) : String :=
  getJobOutputKey (joinDot [jobName, t.serviceName, t.serviceModule]) "IMAGE"

/-- `distributeImageCtl.AfterRun`: write each target's `TargetImage` into the
global context under the `IMAGE` job-output key of
`jobName.serviceName.serviceModule`. -/
def distributeAfterRun (jobName : String) (targets : List StepDistributeTarget)
    (ctx : GlobalContext) : GlobalContext :=
  targets.foldl
    (fun c target =>
      globalContextSet c (stepTargetKey jobName target) target.targetImage)
    ctx

/-! ## Claims about `ClearSelectionField` and `renderKeyVals` -/

/-- A sample selected entry used by concrete witnesses. -/
def sampleEntry : ServiceAndBuild :=
  { serviceName := "s", serviceModule := "m", buildName := "b", imageName := "",
    image := "", packageFile := "", keyVals := [], repos := [] }

/-- **C9.** For every build job, `ClearSelectionField` replaces the spec's
`ServiceAndBuilds` selection with the empty list — except when the selection
has exactly one entry, in which case the spec is left unchanged; the rest of
the spec is untouched either way. -/
theorem clearSelectionField_spec (spec : BuildJobSpec) :
    (spec.serviceAndBuilds.length = 1 → clearSelectionField spec = spec) ∧
    (spec.serviceAndBuilds.length ≠ 1 →
      (clearSelectionField spec).serviceAndBuilds = [] ∧
      (clearSelectionField spec).dockerRegistryID = spec.dockerRegistryID) := by
  constructor <;> intro h <;> simp [clearSelectionField, h]

/-- Witness for C9: a one-entry selection is kept, an empty one is cleared. -/
theorem clearSelectionField_spec_witness :
    clearSelectionField { dockerRegistryID := "r", serviceAndBuilds := [sampleEntry] } =
      { dockerRegistryID := "r", serviceAndBuilds := [sampleEntry] } ∧
    (clearSelectionField { dockerRegistryID := "r", serviceAndBuilds := [] }).serviceAndBuilds
      = [] :=
  ⟨(clearSelectionField_spec _).1 rfl,
   ((clearSelectionField_spec { dockerRegistryID := "r", serviceAndBuilds := [] }).2
      (by decide)).1⟩

/-- **C6.** `renderKeyVals input origin` returns exactly one entry per
`origin` entry, in order; each result entry takes `Key`, `Type`,
`IsCredential` and `ChoiceOption` from the origin entry, and its `Value` from
an input entry with the same key when one exists (otherwise the origin
value).  Consequently keys present only in the input never appear. -/
theorem renderKeyVals_spec (input origin : List KeyVal) :
    List.Forall₂
      (fun (r o : KeyVal) =>
        r.key = o.key ∧ r.type_ = o.type_ ∧ r.isCredential = o.isCredential ∧
        r.choiceOption = o.choiceOption ∧
        ((∃ kv ∈ input, kv.key = o.key ∧ r.value = kv.value) ∨
          ((¬ ∃ kv ∈ input, kv.key = o.key) ∧ r.value = o.value)))
      (renderKeyVals input origin) origin := by
  rw [renderKeyVals, List.forall₂_map_left_iff, List.forall₂_same]
  intro o _
  rw [renderKeyValEntry]
  rcases hlast : (input.filter (fun inputKV => o.key = inputKV.key)).getLast? with _ | kv
  · rw [hlast]
    refine ⟨rfl, rfl, rfl, rfl, Or.inr ⟨?_, rfl⟩⟩
    rintro ⟨kv, hkv, hkey⟩
    rw [List.getLast?_eq_none_iff] at hlast
    have hm : kv ∈ input.filter (fun inputKV => o.key = inputKV.key) := by
      rw [List.mem_filter]
      exact ⟨hkv, by simp [hkey]⟩
    rw [hlast] at hm
    simp at hm
  · have hmem := List.mem_of_mem_getLast? hlast
    simp only [List.mem_filter, decide_eq_true_eq] at hmem
    rw [hlast]
    exact ⟨rfl, rfl, rfl, rfl, Or.inl ⟨kv, hmem.1, hmem.2.symm, rfl⟩⟩

/-! ## Claims about the SQL job controller -/

/-- The update `execLoop` applies to an entry whose statement fully
succeeds. -/
def applyExecOk (db : DBConn) (r : SQLExecResult) : SQLExecResult :=
  match db r.sql with
  | DBResp.execOk elapsed (some n) =>
    { r with status := SQLExecStatus.success, elapsedTime := elapsed, rowsAffected := n }
  | _ => r

theorem execLoop_ok_prefix (db : DBConn) (pre rest : List SQLExecResult)
    (hpre : ∀ r ∈ pre, ∃ e n, db r.sql = DBResp.execOk e (some n)) :
    execLoop db (pre ++ rest) =
      ((pre.map (applyExecOk db)) ++ (execLoop db rest).1,
       (execLoop db rest).2.1,
       pre.map (fun r => r.sql) ++ (execLoop db rest).2.2) := by
  induction pre with
  | nil => simp
  | cons r pre ih =>
    obtain ⟨e, n, hr⟩ := hpre r (by simp)
    have ihh := ih (fun x hx => hpre x (by simp [hx]))
    simp only [List.cons_append, execLoop, hr, applyExecOk, List.map_cons]
    simp [ihh]

/-- Every pre-created result entry starts in the not-executed status. -/
theorem preCreateResults_notExecuted (sqlText : String) :
    ∀ r ∈ preCreateResults sqlText, r.status = SQLExecStatus.notExecuted := by
  intro r hr
  simp only [preCreateResults, List.mem_map] at hr
  obtain ⟨s, _, rfl⟩ := hr
  rfl

/-- **C10.** `ExecMySQLStatement` pre-creates one not-executed result entry
per non-empty piece of the SQL text split after each `;`, before executing
anything; when the statements before position `i` fully succeed and statement
`i` fails, the final result list still has one entry per piece: the entries
before `i` are marked success with the driver's elapsed time and affected row
count, entry `i` is marked failed, and the entries after `i` stay
not-executed — and exactly the statements up to and including `i` were handed
to the driver. -/
theorem execMySQLStatement_failure_spec (db : DBConn) (sqlText : String)
    (pre : List SQLExecResult) (ri : SQLExecResult) (post : List SQLExecResult)
    (hsplit : preCreateResults sqlText = pre ++ ri :: post)
    (hpre : ∀ r ∈ pre, ∃ e n, db r.sql = DBResp.execOk e (some n))
    (hfail : db ri.sql = DBResp.execFail) :
    execMySQLStatement db sqlText =
      (pre.map (applyExecOk db) ++ { ri with status := SQLExecStatus.failed } :: post,
       some ("exec SQL \x22" ++ ri.sql ++ "\x22 error"),
       (pre ++ [ri]).map (fun r => r.sql)) ∧
    (∀ r ∈ pre.map (applyExecOk db), r.status = SQLExecStatus.success) ∧
    (∀ r ∈ post, r.status = SQLExecStatus.notExecuted) ∧
    pre.length + 1 + post.length =
      ((splitAfterSemiS sqlText).filter (fun s => s ≠ "")).length := by
  refine ⟨?_, ?_, ?_, ?_⟩
  · rw [execMySQLStatement, hsplit, execLoop_ok_prefix db pre (ri :: post) hpre]
    simp [execLoop, hfail]
  · intro r hr
    simp only [List.mem_map] at hr
    obtain ⟨x, hx, rfl⟩ := hr
    obtain ⟨e, n, hxe⟩ := hpre x hx
    simp [applyExecOk, hxe]
  · intro r hr
    exact preCreateResults_notExecuted sqlText r (by simp [hsplit, hr])
  · have : (preCreateResults sqlText).length =
        ((splitAfterSemiS sqlText).filter (fun s => s ≠ "")).length := by
      simp [preCreateResults]
    rw [hsplit] at this
    simp at this ⊢
    omega

/-- A concrete driver for the C10 witness: the first statement succeeds, all
others fail. -/
def c10db : DBConn := fun s =>
  if s = "a;" then DBResp.execOk 7 (some 2) else DBResp.execFail

/-- Witness for C10 at SQL text `"a; b; c;"` with the second statement
failing. -/
theorem execMySQLStatement_failure_spec_witness :
    execMySQLStatement c10db "a; b; c;" =
      ([{ sql := "a;", status := SQLExecStatus.notExecuted,
          elapsedTime := 0, rowsAffected := 0 }].map (applyExecOk c10db) ++
        { sql := "b;", status := SQLExecStatus.failed,
          elapsedTime := 0, rowsAffected := 0 } ::
        [{ sql := "c;", status := SQLExecStatus.notExecuted,
           elapsedTime := 0, rowsAffected := 0 }],
       some ("exec SQL \x22b;\x22 error"), ["a;", "b;"]) := by
  have h := execMySQLStatement_failure_spec c10db "a; b; c;"
    [{ sql := "a;", status := SQLExecStatus.notExecuted, elapsedTime := 0, rowsAffected := 0 }]
    { sql := "b;", status := SQLExecStatus.notExecuted, elapsedTime := 0, rowsAffected := 0 }
    [{ sql := "c;", status := SQLExecStatus.notExecuted, elapsedTime := 0, rowsAffected := 0 }]
    (by decide)
    (by
      intro r hr
      simp only [List.mem_singleton] at hr
      subst hr
      exact ⟨7, 2, rfl⟩)
    rfl
  simpa using h.1

/-- **C2.** For a SQL job over `"UPDATE t SET x=1; UPDATE t SET y=2;"`, both
statements are handed to the driver in order; when the first succeeds and
the second fails, the job's result list has exactly these two entries — the
first marked success with the driver's affected row count and elapsed time
recorded, the second marked failed — and the job status is `Failed`. -/
theorem sqlRun_two_statement_scenario (env : SQLEnv) (instID : String)
    (info : DBInstance) (db : DBConn) (e n : Int)
    (hfind : env.findDBInstance instID = some info)
    (htype : info.dbType = dbTypeMySQL)
    (hopen : env.openDB info = some db)
    (h1 : db "UPDATE t SET x=1;" = DBResp.execOk e (some n))
    (h2 : db "UPDATE t SET y=2;" = DBResp.execFail) :
    (sqlRun env instID "UPDATE t SET x=1; UPDATE t SET y=2;").results =
      [{ sql := "UPDATE t SET x=1;", status := SQLExecStatus.success,
         elapsedTime := e, rowsAffected := n },
       { sql := "UPDATE t SET y=2;", status := SQLExecStatus.failed,
         elapsedTime := 0, rowsAffected := 0 }] ∧
    (sqlRun env instID "UPDATE t SET x=1; UPDATE t SET y=2;").status = JobStatus.failed ∧
    (execMySQLStatement db "UPDATE t SET x=1; UPDATE t SET y=2;").2.2 =
      ["UPDATE t SET x=1;", "UPDATE t SET y=2;"] := by
  have hpc : preCreateResults "UPDATE t SET x=1; UPDATE t SET y=2;" =
      [{ sql := "UPDATE t SET x=1;", status := SQLExecStatus.notExecuted,
         elapsedTime := 0, rowsAffected := 0 },
       { sql := "UPDATE t SET y=2;", status := SQLExecStatus.notExecuted,
         elapsedTime := 0, rowsAffected := 0 }] := by decide
  have hms : execMySQLStatement db "UPDATE t SET x=1; UPDATE t SET y=2;" =
      ([{ sql := "UPDATE t SET x=1;", status := SQLExecStatus.success,
          elapsedTime := e, rowsAffected := n },
        { sql := "UPDATE t SET y=2;", status := SQLExecStatus.failed,
          elapsedTime := 0, rowsAffected := 0 }],
       some ("exec SQL \x22UPDATE t SET y=2;\x22 error"),
       ["UPDATE t SET x=1;", "UPDATE t SET y=2;"]) := by
    rw [execMySQLStatement, hpc]
    simp [execLoop, h1, h2]
  refine ⟨?_, ?_, by rw [hms]⟩ <;>
    simp [sqlRun, hfind, htype, hopen, hms, dbTypeMySQL]

/-- A concrete environment for the C2 witness. -/
def c2db : DBConn := fun s =>
  if s = "UPDATE t SET x=1;" then DBResp.execOk 11 (some 4) else DBResp.execFail

/-- A concrete SQL environment for the C2 witness. -/
def c2env : SQLEnv :=
  { findDBInstance := fun i => if i = "inst1" then some { dbType := "mysql" } else none,
    openDB := fun _ => some c2db }

/-- Witness for C2 at a concrete environment and driver. -/
theorem sqlRun_two_statement_scenario_witness :
    (sqlRun c2env "inst1" "UPDATE t SET x=1; UPDATE t SET y=2;").results =
      [{ sql := "UPDATE t SET x=1;", status := SQLExecStatus.success,
         elapsedTime := 11, rowsAffected := 4 },
       { sql := "UPDATE t SET y=2;", status := SQLExecStatus.failed,
         elapsedTime := 0, rowsAffected := 0 }] ∧
    (sqlRun c2env "inst1" "UPDATE t SET x=1; UPDATE t SET y=2;").status =
      JobStatus.failed ∧
    (execMySQLStatement c2db "UPDATE t SET x=1; UPDATE t SET y=2;").2.2 =
      ["UPDATE t SET x=1;", "UPDATE t SET y=2;"] :=
  sqlRun_two_statement_scenario c2env "inst1" { dbType := "mysql" } c2db 11 4
    rfl rfl rfl rfl rfl

/-! ## Claims about `renderRepos` -/

theorem getLast?_cons_match {α : Type} (a : α) (l : List α) :
    (a :: l).getLast? = (match l.getLast? with | some x => some x | none => some a) := by
  cases hl : l.getLast? with
  | none =>
    rw [List.getLast?_eq_none_iff] at hl
    subst hl
    rfl
  | some x =>
    cases l with
    | nil => simp at hl
    | cons b bs => rw [List.getLast?_cons_cons, hl]

theorem renderReposInner_spec (kvs : List KeyVal) (o : Repository)
    (input : List Repository) :
    renderReposInner kvs o input =
      (input.map (fun i =>
        if o.repoName = i.repoName ∧ o.repoOwner = i.repoOwner
        then renderReposProcess kvs i else i),
       ((input.filter (fun i =>
          o.repoName = i.repoName ∧ o.repoOwner = i.repoOwner)).getLast?).map
         (renderReposProcess kvs)) := by
  induction input with
  | nil => simp [renderReposInner]
  | cons i is ih =>
    by_cases h : o.repoName = i.repoName ∧ o.repoOwner = i.repoOwner
    · simp only [renderReposInner, if_pos h, ih, List.map_cons, if_pos h,
        List.filter_cons, decide_eq_true_eq]
      rw [getLast?_cons_match]
      rcases hg : (is.filter (fun i =>
          decide (o.repoName = i.repoName ∧ o.repoOwner = i.repoOwner))).getLast? with _ | x <;>
        rw [hg] <;> rfl
    · simp only [renderReposInner, if_neg h, ih, List.map_cons, if_neg h,
        List.filter_cons, decide_eq_true_eq]

theorem filter_map_invariant {α : Type} (f : α → α) (p : α → Bool) (l : List α)
    (h1 : ∀ i, p (f i) = p i) (h2 : ∀ i, p i = true → f i = i) :
    (l.map f).filter p = l.filter p := by
  induction l with
  | nil => rfl
  | cons i is ih =>
    by_cases hp : p i = true
    · rw [List.map_cons, List.filter_cons, List.filter_cons]
      rw [h2 i hp] at *
      rw [hp]
      simp only [ih]
    · rw [List.map_cons, List.filter_cons, List.filter_cons]
      have : p (f i) = p i := h1 i
      simp only [this]
      rw [Bool.eq_false_iff.mpr hp] at *
      simp [ih]

theorem renderReposGo_amended (kvs : List KeyVal) (origin : List Repository) :
    ∀ input : List Repository,
      (origin.map (fun o => (o.repoName, o.repoOwner))).Nodup →
      renderReposGo kvs input origin =
        origin.map (fun o =>
          match ((input.filter (fun i =>
              o.repoName = i.repoName ∧ o.repoOwner = i.repoOwner)).getLast?) with
          | some i => renderReposProcess kvs i
          | none => o) := by
  induction origin with
  | nil => intro input _; rfl
  | cons o os ih =>
    intro input hnodup
    rw [List.map_cons, List.nodup_cons] at hnodup
    have hfilters : ∀ o2 ∈ os,
        ((input.map (fun i =>
            if o.repoName = i.repoName ∧ o.repoOwner = i.repoOwner
            then renderReposProcess kvs i else i)).filter (fun i =>
           o2.repoName = i.repoName ∧ o2.repoOwner = i.repoOwner)) =
        input.filter (fun i =>
           o2.repoName = i.repoName ∧ o2.repoOwner = i.repoOwner) := by
      intro o2 ho2
      apply filter_map_invariant
      · intro i
        by_cases h : o.repoName = i.repoName ∧ o.repoOwner = i.repoOwner
        · rw [if_pos h]
          simp [renderReposProcess]
          split <;> simp
        · rw [if_neg h]
      · intro i hp
        simp only [decide_eq_true_eq] at hp
        by_cases h : o.repoName = i.repoName ∧ o.repoOwner = i.repoOwner
        · exfalso
          apply hnodup.1
          rw [List.mem_map]
          refine ⟨o2, ho2, ?_⟩
          rw [Prod.ext_iff]
          exact ⟨by rw [hp.1, h.1], by rw [hp.2, h.2]⟩
        · rw [if_neg h]
    simp only [renderReposGo, renderReposInner_spec]
    rcases hg : (input.filter (fun i =>
        o.repoName = i.repoName ∧ o.repoOwner = i.repoOwner)).getLast? with _ | i0 <;>
      simp only [hg, Option.map_some, Option.map_none, List.map_cons] <;>
      rw [ih _ hnodup.2] <;>
      exact congrArg _ (List.map_congr_left (fun o2 ho2 => by rw [hfilters o2 ho2]))

/-- The repos a user submits in the C5 counterexample: same `repoName` and
`repoOwner` as the canonical entry, but different `source`, namespace and
branch. -/
def c5input : Repository :=
  { source := "gitlab", repoOwner := "o", repoNamespace := "other", repoName := "r",
    branch := "dev", tag := "", pr := 0, prs := [], filterRegexp := "",
    checkoutPath := "", remoteName := "x" }

/-- The canonical repo of the C5 counterexample. -/
def c5origin : Repository :=
  { source := "github", repoOwner := "o", repoNamespace := "ns", repoName := "r",
    branch := "main", tag := "", pr := 0, prs := [], filterRegexp := "",
    checkoutPath := "", remoteName := "x" }

/-- **C5, counterexample.**  `renderRepos` matches on (repoName, repoOwner) —
not on (source, namespace, repoName) — and the matched result entry is the
user-input repository itself, so canonical metadata (here `source` and
`repoNamespace`) is *not* kept: the claim's required output (the canonical
entry with only branch/tag/PR from the input) differs from the actual
output. -/
theorem renderRepos_claim_counterexample :
    renderRepos [c5input] [c5origin] [] = [c5input] ∧
    c5input.source ≠ c5origin.source ∧
    c5input.repoNamespace ≠ c5origin.repoNamespace ∧
    renderRepos [c5input] [c5origin] [] ≠
      [{ c5origin with branch := c5input.branch, tag := c5input.tag,
                       pr := c5input.pr, prs := c5input.prs }] := by
  refine ⟨by decide, by decide, by decide, by decide⟩

/-- **C5, amended.**  `renderRepos` merges the user-input repository list
into the canonical list keyed by (repoName, repoOwner); each canonical entry
matched by input repos is replaced by the *last* matching input repository
(with its `CheckoutPath` env-rendered and an empty `RemoteName` defaulted to
"origin"), keeping the input's metadata; unmatched canonical entries are kept
unchanged.  (Stated for canonical lists without duplicate
(repoName, repoOwner) keys, where the in-place mutation of the input list
cannot re-render an already rendered entry.) -/
theorem renderRepos_amended (input origin : List Repository) (kvs : List KeyVal)
    (hnodup : (origin.map (fun o => (o.repoName, o.repoOwner))).Nodup) :
    renderRepos input origin kvs =
      origin.map (fun o =>
        match ((input.filter (fun i =>
            o.repoName = i.repoName ∧ o.repoOwner = i.repoOwner)).getLast?) with
        | some i => renderReposProcess kvs i
        | none => o) :=
  renderReposGo_amended kvs origin input hnodup

/-- Witness for the amended C5: a matched slot takes the processed input
repo, an unmatched slot keeps the canonical entry. -/
theorem renderRepos_amended_witness :
    renderRepos [c5input] [c5origin] [] =
      [c5origin].map (fun o =>
        match (([c5input].filter (fun i =>
            o.repoName = i.repoName ∧ o.repoOwner = i.repoOwner)).getLast?) with
        | some i => renderReposProcess [] i
        | none => o) :=
  renderRepos_amended [c5input] [c5origin] [] (by decide)

/-! ## Claims about `ToJobs` key uniqueness -/

theorem checkPostBuild_ok (cat : Catalog) (bi : Build) (task t : CompiledJobTask)
    (h : checkPostBuild cat bi task = .ok t) : t = task := by
  rw [checkPostBuild.eq_def] at h
  repeat' split at h
  all_goals simp_all

theorem toJobsEntry_ok (cat : Catalog) (jobName : String) (b : ServiceAndBuild)
    (t : CompiledJobTask) (h : toJobsEntry cat jobName b = .ok t) :
    t.key = joinDot [jobName, b.serviceName, b.serviceModule] ∧
    t.serviceName = b.serviceName ∧ t.serviceModule = b.serviceModule ∧
    t.jobName = jobName := by
  rw [toJobsEntry.eq_def] at h
  repeat' split at h
  all_goals first
    | (have ht := checkPostBuild_ok _ _ _ _ h
       subst ht
       exact ⟨rfl, rfl, rfl, rfl⟩)
    | simp at h

theorem toJobsLoop_ok (cat : Catalog) (jobName : String) :
    ∀ (builds : List ServiceAndBuild) (tasks : List CompiledJobTask),
    toJobsLoop cat jobName builds = .ok tasks →
    tasks.map (fun t => t.key) =
      builds.map (fun b => joinDot [jobName, b.serviceName, b.serviceModule]) ∧
    tasks.map (fun t => (t.serviceName, t.serviceModule)) =
      builds.map (fun b => (b.serviceName, b.serviceModule)) := by
  intro builds
  induction builds with
  | nil =>
    intro tasks h
    simp only [toJobsLoop] at h
    cases h
    simp
  | cons b bs ih =>
    intro tasks h
    simp only [toJobsLoop] at h
    rcases he : toJobsEntry cat jobName b with e | t0 <;> rw [he] at h
    · simp at h
    · rcases hl : toJobsLoop cat jobName bs with e2 | ts0 <;> rw [hl] at h
      · simp at h
      · cases h
        obtain ⟨hkey, hsn, hsm, -⟩ := toJobsEntry_ok cat jobName b t0 he
        obtain ⟨ih1, ih2⟩ := ih ts0 hl
        simp [hkey, hsn, hsm, ih1, ih2]

theorem dotFree_append_inj (a : List Char) :
    ∀ (b u v : List Char), '.' ∉ a → '.' ∉ b →
    a ++ '.' :: u = b ++ '.' :: v → a = b ∧ u = v := by
  induction a with
  | nil =>
    intro b u v _ hb h
    cases b with
    | nil => simpa using h
    | cons d bs =>
      simp only [List.nil_append, List.cons_append, List.cons.injEq] at h
      exact absurd (by rw [h.1]; exact List.mem_cons_self d bs) hb
  | cons c as ih =>
    intro b u v ha hb h
    cases b with
    | nil =>
      simp only [List.cons_append, List.nil_append, List.cons.injEq] at h
      exact absurd (by rw [← h.1]; exact List.mem_cons_self c as) ha
    | cons d bs =>
      simp only [List.cons_append, List.cons.injEq] at h
      have ha2 : '.' ∉ as := fun hm => ha (List.mem_cons_of_mem c hm)
      have hb2 : '.' ∉ bs := fun hm => hb (List.mem_cons_of_mem d hm)
      obtain ⟨h1, h2⟩ := ih bs u v ha2 hb2 h.2
      exact ⟨by rw [h.1, h1], h2⟩

theorem joinDot_key_inj (jobName s1 m1 s2 m2 : String)
    (h1 : '.' ∉ s1.data) (h2 : '.' ∉ s2.data)
    (h : joinDot [jobName, s1, m1] = joinDot [jobName, s2, m2]) :
    s1 = s2 ∧ m1 = m2 := by
  have hd : jobName.data ++ '.' :: (s1.data ++ '.' :: m1.data) =
      jobName.data ++ '.' :: (s2.data ++ '.' :: m2.data) := by
    have := congrArg String.data h
    simpa [joinDot, joinSep, String.data_append] using this
  have hcut := List.append_cancel_left hd
  have hcut2 := List.cons.inj hcut
  obtain ⟨e1, e2⟩ := dotFree_append_inj s1.data s2.data m1.data m2.data h1 h2 hcut2.2
  exact ⟨String.ext e1, String.ext e2⟩

/-- **C1, amended.**  `ToJobs` emits exactly one `JobTask` per selected
(service, module) pair, in order, whose `Key` is
`jobName.serviceName.serviceModule`; when the selected pairs are pairwise
distinct *and no selected service name contains a dot*, the emitted keys are
pairwise distinct.  (The dot-freeness condition is forced by the
counterexample below: `.` is also the key separator.) -/
theorem toJobs_keys_spec (cat : Catalog) (jobName : String) (spec : BuildJobSpec)
    (tasks : List CompiledJobTask)
    (hok : toJobs cat jobName spec = .ok tasks) :
    tasks.map (fun t => t.key) =
      spec.serviceAndBuilds.map
        (fun b => joinDot [jobName, b.serviceName, b.serviceModule]) ∧
    tasks.map (fun t => (t.serviceName, t.serviceModule)) =
      spec.serviceAndBuilds.map (fun b => (b.serviceName, b.serviceModule)) ∧
    ((spec.serviceAndBuilds.map (fun b => (b.serviceName, b.serviceModule))).Nodup →
      (∀ b ∈ spec.serviceAndBuilds, '.' ∉ b.serviceName.data) →
      (tasks.map (fun t => t.key)).Nodup) := by
  have hloop : toJobsLoop cat jobName spec.serviceAndBuilds = .ok tasks := by
    rw [toJobs.eq_def] at hok
    repeat' split at hok
    all_goals simp_all
  obtain ⟨hkeys, hpairs⟩ := toJobsLoop_ok cat jobName spec.serviceAndBuilds tasks hloop
  refine ⟨hkeys, hpairs, fun hnd hdotfree => ?_⟩
  have : tasks.map (fun t => t.key) =
      (spec.serviceAndBuilds.map (fun b => (b.serviceName, b.serviceModule))).map
        (fun p => joinDot [jobName, p.1, p.2]) := by
    rw [hkeys, List.map_map]
    rfl
  rw [this]
  refine List.Nodup.map_on ?_ hnd
  intro x hx y hy hxy
  simp only [List.mem_map] at hx hy
  obtain ⟨bx, hbx, rfl⟩ := hx
  obtain ⟨by_, hby, rfl⟩ := hy
  obtain ⟨e1, e2⟩ := joinDot_key_inj jobName _ _ _ _
    (hdotfree bx hbx) (hdotfree by_ hby) hxy
  rw [Prod.ext_iff]
  exact ⟨e1, e2⟩

/-- The build configuration behind the C1 concrete inputs: no template, VM
infrastructure (no cluster/cache lookups), no post-build. -/
def c1build : Build :=
  { templateID := "", timeout := 60,
    preBuild := { imageID := "img", clusterID := "", envs := [] },
    postBuild := none, repos := [], targets := [], outputs := [],
    infrastructure := "vm", cacheEnable := false, cacheDirType := "",
    cacheUserDir := "" }

/-- A catalog on which `ToJobs` succeeds for any selection naming build
`"B"`. -/
def c1cat : Catalog :=
  { findRegistry := fun _ => some
      { regAddr := "reg.example", regNamespace := "", accessKey := "", secretKey := "" },
    defaultS3 := some { ak := "", sk := "", endpoint := "", bucket := "bkt" },
    findBuild := fun n => if n = "B" then some c1build else none,
    findBuildTemplate := fun _ => none,
    findBasicImage := fun i => if i = "img" then some "ubuntu 20.04" else none,
    listRegistries := some [],
    findCluster := fun _ => none,
    findS3 := fun _ => none,
    servicesMap := some (fun _ => none),
    mergeBuildEnvs := fun a _ => a }

/-- A selected entry of the C1 inputs, for a given service name/module. -/
def c1entry (sn sm : String) : ServiceAndBuild :=
  { serviceName := sn, serviceModule := sm, buildName := "B", imageName := "",
    image := "", packageFile := "", keyVals := [], repos := [] }

/-- **C1, counterexample.**  With service names containing dots, two distinct
(service, module) pairs — ("a.b", "c") and ("a", "b.c") — compile to the same
`Key` `"j.a.b.c"`, so the emitted keys are not pairwise distinct even though
the selected pairs are. -/
theorem toJobs_claim_counterexample :
    (toJobs c1cat "j"
        { dockerRegistryID := "reg",
          serviceAndBuilds := [c1entry "a.b" "c", c1entry "a" "b.c"] }).map
        (fun tasks => tasks.map (fun t => t.key)) =
      Except.ok ["j.a.b.c", "j.a.b.c"] ∧
    ([c1entry "a.b" "c", c1entry "a" "b.c"].map
        (fun b => (b.serviceName, b.serviceModule))).Nodup ∧
    ¬ (["j.a.b.c", "j.a.b.c"] : List String).Nodup := by
  refine ⟨by rfl, by decide, by decide⟩

/-- Witness for the amended C1: a dot-free selection of two distinct pairs
compiles to pairwise-distinct keys. -/
theorem toJobs_keys_spec_witness :
    ([mkBuildJobTask "j" (c1entry "a" "c") c1build,
      mkBuildJobTask "j" (c1entry "a" "d") c1build].map (fun t => t.key)).Nodup :=
  (toJobs_keys_spec c1cat "j"
      { dockerRegistryID := "reg",
        serviceAndBuilds := [c1entry "a" "c", c1entry "a" "d"] }
      [mkBuildJobTask "j" (c1entry "a" "c") c1build,
       mkBuildJobTask "j" (c1entry "a" "d") c1build]
      (by rfl)).2.2 (by decide) (by decide)

/-! ## Claims about `ImageDistributeJob.LintJob` -/

theorem rankBindings_append (l1 : List String) (n : Nat) (l2 : List String) :
    rankBindings n (l1 ++ l2) =
      rankBindings n l1 ++ rankBindings (n + l1.length) l2 := by
  induction l1 generalizing n with
  | nil => simp [rankBindings]
  | cons a l1 ih =>
    simp only [List.cons_append, rankBindings, List.length_cons, List.append_eq]
    rw [ih (n + 1)]
    have harith : n + 1 + l1.length = n + (l1.length + 1) := by omega
    rw [harith]

theorem rankOf_append (m1 m2 : List (String × Nat)) (k : String) :
    rankOf (m1 ++ m2) k = (rankOf m2 k).or (rankOf m1 k) := by
  simp only [rankOf, List.reverse_append, List.find?_append]
  exact Option.map_or

theorem rankOf_singleton (a : String) (n : Nat) (k : String) :
    rankOf [(a, n)] k = if a = k then some n else none := by
  by_cases h : a = k
  · simp [rankOf, h]
  · simp [rankOf, h]

theorem rankOf_not_mem (names : List String) (n : Nat) (k : String)
    (hk : k ∉ names) : rankOf (rankBindings n names) k = none := by
  induction names generalizing n with
  | nil => rfl
  | cons a l ih =>
    have : rankBindings n (a :: l) = [(a, n)] ++ rankBindings (n + 1) l := by
      simp [rankBindings]
    rw [this, rankOf_append, ih (n + 1) (fun hm => hk (List.mem_cons_of_mem a hm)),
      rankOf_singleton]
    have : ¬ a = k := fun h => hk (h ▸ List.mem_cons_self a l)
    simp [this]

theorem rankOf_some_bounds (names : List String) (n : Nat) (k : String) (r : Nat)
    (h : rankOf (rankBindings n names) k = some r) :
    n ≤ r ∧ r < n + names.length := by
  induction names generalizing n with
  | nil => simp [rankOf, rankBindings] at h
  | cons a l ih =>
    have hsplit : rankBindings n (a :: l) = [(a, n)] ++ rankBindings (n + 1) l := by
      simp [rankBindings]
    rw [hsplit, rankOf_append] at h
    rcases ho : rankOf (rankBindings (n + 1) l) k with _ | r2
    · rw [ho, Option.none_or, rankOf_singleton] at h
      by_cases ha : a = k
      · rw [if_pos ha] at h
        cases h
        simp
      · rw [if_neg ha] at h
        simp at h
    · rw [ho] at h
      have h2 : some r2 = some r := h
      cases h2
      have := ih (n + 1) ho
      simp only [List.length_cons]
      omega

theorem rankOf_head (k : String) (n : Nat) (post : List String)
    (hk : k ∉ post) : rankOf (rankBindings n (k :: post)) k = some n := by
  have hsplit : rankBindings n (k :: post) = [(k, n)] ++ rankBindings (n + 1) post := by
    simp [rankBindings]
  rw [hsplit, rankOf_append, rankOf_not_mem post (n + 1) k hk, rankOf_singleton]
  simp

/-- **C4.**  For a distribute-image job with source "from-job", `LintJob`
succeeds exactly when the referenced job occurs before the referencing job in
stage-major order (earlier in the same stage or in an earlier stage), and
fails with a referential error when the referenced job occurs at or after the
referencing job's position or does not occur at all.  (Job names are assumed
unique across the workflow, and the referencing job occurs in it: the
workflow's job names in stage-major order are `pre ++ selfName :: post`.) -/
theorem rankOf_mem_isSome (names : List String) (n : Nat) (k : String)
    (hk : k ∈ names) : (rankOf (rankBindings n names) k).isSome := by
  induction names generalizing n with
  | nil => simp at hk
  | cons a l ih =>
    have hsplit : rankBindings n (a :: l) = [(a, n)] ++ rankBindings (n + 1) l := by
      simp [rankBindings]
    rw [hsplit, rankOf_append, rankOf_singleton]
    rcases List.mem_cons.mp hk with rfl | hm
    · rcases ho : rankOf (rankBindings (n + 1) l) k with _ | x <;> simp [ho]
    · have hs := ih (n + 1) hm
      rcases ho : rankOf (rankBindings (n + 1) l) k with _ | x
      · rw [ho] at hs
        simp at hs
      · simp [ho]

theorem lintImageDistribute_spec (stages : List WorkflowStage) (selfName : String)
    (spec : DistributeImageJobSpec) (pre post : List String)
    (hnames : allJobNames stages = pre ++ selfName :: post)
    (hnodup : (allJobNames stages).Nodup)
    (hsrc : spec.source = sourceFromJob) :
    (lintImageDistributeJob stages selfName spec = .ok () ↔ spec.jobName ∈ pre) ∧
    (spec.jobName ∉ pre →
      ∃ e, lintImageDistributeJob stages selfName spec = .error e) := by
  rw [hnames] at hnodup
  have hd := List.disjoint_of_nodup_append hnodup
  have hnpost : (selfName :: post).Nodup := hnodup.of_append_right
  have hselfpost : selfName ∉ post := (List.nodup_cons.mp hnpost).1
  have hselfrank : rankOf (getJobRankMap stages) selfName = some pre.length := by
    rw [getJobRankMap, hnames, rankBindings_append, rankOf_append, Nat.zero_add,
      rankOf_head selfName pre.length post hselfpost]
    rfl
  have hmain : lintImageDistributeJob stages selfName spec = .ok () ↔
      spec.jobName ∈ pre := by
    constructor
    · intro hok
      rw [lintImageDistributeJob, if_neg (by rw [hsrc]; simp)] at hok
      rcases hr : rankOf (getJobRankMap stages) spec.jobName with _ | br
      · rw [hr] at hok
        simp at hok
      · rw [hr] at hok
        simp only [hselfrank, Option.getD_some] at hok
        have hlt : br < pre.length := by
          by_contra hge
          rw [if_pos (by omega)] at hok
          simp at hok
        by_contra hnm
        rw [getJobRankMap, hnames, rankBindings_append, rankOf_append, Nat.zero_add,
          rankOf_not_mem pre 0 spec.jobName hnm] at hr
        rcases h2 : rankOf (rankBindings pre.length (selfName :: post))
            spec.jobName with _ | b2
        · rw [h2] at hr
          simp at hr
        · rw [h2] at hr
          have h3 : some b2 = some br := hr
          cases h3
          have hb := rankOf_some_bounds (selfName :: post) pre.length spec.jobName br h2
          omega
    · intro hmem
      have hnotpost : spec.jobName ∉ selfName :: post := fun hm => hd hmem hm
      have hsome := rankOf_mem_isSome pre 0 spec.jobName hmem
      rcases hr : rankOf (rankBindings 0 pre) spec.jobName with _ | br
      · rw [hr] at hsome
        simp at hsome
      · have hrfull : rankOf (getJobRankMap stages) spec.jobName = some br := by
          rw [getJobRankMap, hnames, rankBindings_append, rankOf_append, Nat.zero_add,
            rankOf_not_mem (selfName :: post) pre.length spec.jobName hnotpost]
          rw [Option.none_or]
          exact hr
        have hbound := rankOf_some_bounds pre 0 spec.jobName br hr
        rw [lintImageDistributeJob, if_neg (by rw [hsrc]; simp), hrfull]
        simp only [hselfrank, Option.getD_some]
        rw [if_neg (by omega)]
  refine ⟨hmain, fun hnm => ?_⟩
  rcases he : lintImageDistributeJob stages selfName spec with e | u
  · exact ⟨e, rfl⟩
  · cases u
    exact absurd (hmain.mp he) hnm

/-- A two-stage workflow for the C4 witness: `build1` in the first stage,
the distribute job `dist` (and a later job) in the second. -/
def c4stages : List WorkflowStage :=
  [{ name := "build", jobs := [{ name := "build1", jobType := "zadig-build" }] },
   { name := "deploy",
     jobs := [{ name := "dist", jobType := "zadig-distribute-image" },
              { name := "later", jobType := "zadig-deploy" }] }]

/-- Witness for C4: referencing a job of an earlier stage passes lint. -/
theorem lintImageDistribute_spec_witness :
    lintImageDistributeJob c4stages "dist"
      { source := sourceFromJob, jobName := "build1", targets := [] } = .ok () :=
  (lintImageDistribute_spec c4stages "dist"
    { source := sourceFromJob, jobName := "build1", targets := [] }
    ["build1"] ["later"] (by rfl) (by decide) rfl).1.mpr (by decide)

/-! ## Claims about distribute outputs (`AfterRun` / `GetOutPuts`) -/

theorem distributeAfterRun_preserves (jobName : String)
    (targets : List StepDistributeTarget) (q : String) :
    ∀ ctx : GlobalContext, (∀ t ∈ targets, stepTargetKey jobName t ≠ q) →
    distributeAfterRun jobName targets ctx q = ctx q := by
  induction targets with
  | nil => intro ctx _; rfl
  | cons t0 ts ih =>
    intro ctx hne
    rw [distributeAfterRun, List.foldl_cons]
    have step : distributeAfterRun jobName ts
        (globalContextSet ctx (stepTargetKey jobName t0) t0.targetImage) q =
        (globalContextSet ctx (stepTargetKey jobName t0) t0.targetImage) q :=
      ih _ (fun t ht => hne t (List.mem_cons_of_mem t0 ht))
    rw [distributeAfterRun] at step
    rw [step, globalContextSet, if_neg ?_]
    exact fun hq => hne t0 (List.mem_cons_self t0 ts) hq.symm

theorem distributeAfterRun_resolves (jobName : String) :
    ∀ (steps : List StepDistributeTarget) (ctx : GlobalContext),
    (steps.map (stepTargetKey jobName)).Nodup →
    ∀ t ∈ steps,
      distributeAfterRun jobName steps ctx (stepTargetKey jobName t) =
        some t.targetImage := by
  intro steps
  induction steps with
  | nil => intro ctx _ t ht; simp at ht
  | cons t0 ts ih =>
    intro ctx hnodup t ht
    rw [List.map_cons, List.nodup_cons] at hnodup
    rcases List.mem_cons.mp ht with rfl | hts
    · rw [distributeAfterRun, List.foldl_cons]
      have hpres := distributeAfterRun_preserves jobName ts (stepTargetKey jobName t)
        (globalContextSet ctx (stepTargetKey jobName t) t.targetImage)
        (fun t2 ht2 hk => hnodup.1 (hk ▸ List.mem_map_of_mem _ ht2))
      rw [distributeAfterRun] at hpres
      rw [hpres, globalContextSet, if_pos rfl]
    · rw [distributeAfterRun, List.foldl_cons]
      have hih := ih (globalContextSet ctx (stepTargetKey jobName t0) t0.targetImage)
        hnodup.2 t hts
      rw [distributeAfterRun] at hih
      exact hih

theorem flatMap_singleton_eq_map {α β : Type} (f : α → β) (l : List α) :
    (l.flatMap fun x => [f x]) = l.map f := by
  induction l with
  | nil => rfl
  | cons x xs ih => simp only [List.flatMap_cons, List.map_cons, List.singleton_append, ih]

/-- **C7.**  For every distribute step, `AfterRun` writes each target's
`TargetImage` into the global context under the `IMAGE` job-output key of
`jobName.serviceName.serviceModule`, so a downstream lookup of that key
resolves to the exact written value; and the distribute job's `GetOutPuts`
returns exactly these keys for the configured targets.  (Stated for step
targets aligned with the job spec's targets — as `ToJobs` constructs them —
whose output keys are pairwise distinct.) -/
theorem distributeOutputs_spec (jobName : String) (spec : DistributeImageJobSpec)
    (steps : List StepDistributeTarget) (ctx : GlobalContext)
    (halign : steps.map (fun t => (t.serviceName, t.serviceModule)) =
      spec.targets.map (fun t => (t.serviceName, t.serviceModule)))
    (hnodup : (steps.map (stepTargetKey jobName)).Nodup) :
    (∀ t ∈ steps,
      distributeAfterRun jobName steps ctx (stepTargetKey jobName t) =
        some t.targetImage) ∧
    distributeGetOutPuts jobName spec = steps.map (stepTargetKey jobName) := by
  refine ⟨distributeAfterRun_resolves jobName steps ctx hnodup, ?_⟩
  rw [distributeGetOutPuts]
  have hflat : (spec.targets.flatMap fun target =>
      getOutputKey (joinDot [jobName, target.serviceName, target.serviceModule])
        [{ name := "IMAGE" }]) =
      spec.targets.map (fun target =>
        getJobOutputKey (joinDot [jobName, target.serviceName, target.serviceModule])
          "IMAGE") := by
    rw [← flatMap_singleton_eq_map]
    rfl
  rw [hflat]
  have h1 : steps.map (stepTargetKey jobName) =
      (steps.map (fun t => (t.serviceName, t.serviceModule))).map
        (fun p => getJobOutputKey (joinDot [jobName, p.1, p.2]) "IMAGE") := by
    rw [List.map_map]
    rfl
  have h2 : spec.targets.map (fun target =>
      getJobOutputKey (joinDot [jobName, target.serviceName, target.serviceModule])
        "IMAGE") =
      (spec.targets.map (fun t => (t.serviceName, t.serviceModule))).map
        (fun p => getJobOutputKey (joinDot [jobName, p.1, p.2]) "IMAGE") := by
    rw [List.map_map]
    rfl
  rw [h1, h2, halign]

/-- The empty global context used by the C7 witness. -/
def emptyCtx : GlobalContext := fun _ => none

/-- Witness for C7: two (service, module) targets, keys
`dist1.svcA.modA.IMAGE` and `dist1.svcB.modB.IMAGE`, both resolvable after
`AfterRun` and both listed by `GetOutPuts`. -/
theorem distributeOutputs_spec_witness :
    (distributeAfterRun "dist1"
      [{ serviceName := "svcA", serviceModule := "modA", targetImage := "img:a" },
       { serviceName := "svcB", serviceModule := "modB", targetImage := "img:b" }]
      emptyCtx "dist1.svcA.modA.IMAGE" = some "img:a") ∧
    distributeGetOutPuts "dist1"
      { source := "runtime", jobName := "",
        targets := [{ serviceName := "svcA", serviceModule := "modA", imageName := "",
                      sourceTag := "", targetTag := "", updateTag := false,
                      sourceImage := "", targetImage := "" },
                    { serviceName := "svcB", serviceModule := "modB", imageName := "",
                      sourceTag := "", targetTag := "", updateTag := false,
                      sourceImage := "", targetImage := "" }] } =
      ["dist1.svcA.modA.IMAGE", "dist1.svcB.modB.IMAGE"] := by
  have h := distributeOutputs_spec "dist1"
    { source := "runtime", jobName := "",
      targets := [{ serviceName := "svcA", serviceModule := "modA", imageName := "",
                    sourceTag := "", targetTag := "", updateTag := false,
                    sourceImage := "", targetImage := "" },
                  { serviceName := "svcB", serviceModule := "modB", imageName := "",
                    sourceTag := "", targetTag := "", updateTag := false,
                    sourceImage := "", targetImage := "" }] }
    [{ serviceName := "svcA", serviceModule := "modA", targetImage := "img:a" },
     { serviceName := "svcB", serviceModule := "modB", targetImage := "img:b" }]
    emptyCtx (by rfl) (by decide)
  refine ⟨?_, by rw [h.2]; rfl⟩
  exact h.1 { serviceName := "svcA", serviceModule := "modA", targetImage := "img:a" }
    (by simp)

/-! ## Claims about cronjob reconciliation -/

/-- The IDs carried by submitted schedule items (the items that update in
place). -/
def submittedIds (schedule : List ScheduleItem) : List Nat :=
  (schedule.filter (fun t => t.id ≠ 0)).map (fun t => t.id)

/-- The submitted items without an ID (the items that create records). -/
def zeroItems (schedule : List ScheduleItem) : List ScheduleItem :=
  schedule.filter (fun t => t.id = 0)

/-- The net effect of the reconciliation loop's updates on one stored
record: the last submitted item carrying this record's ID replaces it. -/
def applyUpdates (pn pt prod : String) (schedule : List ScheduleItem)
    (r : Cronjob) : Cronjob :=
  match (schedule.filter (fun t => t.id ≠ 0 ∧ t.id = r.id)).getLast? with
  | some t => { renderCronjob pn pt prod t with id := r.id }
  | none => r

/-- The records the reconciliation loop creates, with their fresh IDs
allocated in submission order starting at `n`. -/
def createdList (pn pt prod : String) : Nat → List ScheduleItem → List Cronjob
  | _, [] => []
  | n, t :: ts =>
    if t.id = 0 then
      { renderCronjob pn pt prod t with id := n } :: createdList pn pt prod (n + 1) ts
    else createdList pn pt prod n ts

theorem applyUpdates_id (pn pt prod : String) (schedule : List ScheduleItem)
    (r : Cronjob) : (applyUpdates pn pt prod schedule r).id = r.id := by
  rw [applyUpdates]
  rcases h : (schedule.filter (fun t => t.id ≠ 0 ∧ t.id = r.id)).getLast? with _ | t <;>
    rw [h]

theorem createdList_id_le (pn pt prod : String) :
    ∀ (schedule : List ScheduleItem) (n : Nat),
    ∀ c ∈ createdList pn pt prod n schedule, n ≤ c.id := by
  intro schedule
  induction schedule with
  | nil => intro n c hc; simp [createdList] at hc
  | cons t ts ih =>
    intro n c hc
    rw [createdList] at hc
    by_cases ht : t.id = 0
    · rw [if_pos ht] at hc
      rcases List.mem_cons.mp hc with rfl | hc2
      · simp
      · have := ih (n + 1) c hc2
        omega
    · rw [if_neg ht] at hc
      exact ih n c hc

theorem applyUpdates_cons_nonzero (pn pt prod : String) (t : ScheduleItem)
    (rest : List ScheduleItem) (r : Cronjob) (ht : t.id ≠ 0) :
    applyUpdates pn pt prod rest
      (if r.id = t.id then { renderCronjob pn pt prod t with id := t.id } else r) =
    applyUpdates pn pt prod (t :: rest) r := by
  by_cases hid : r.id = t.id
  · rw [if_pos hid]
    rw [applyUpdates, applyUpdates, List.filter_cons,
      if_pos (by simp [ht, hid])]
    rcases hl : (rest.filter (fun t2 => t2.id ≠ 0 ∧ t2.id = r.id)).getLast? with _ | t2
    · have hl2 : (rest.filter (fun t2 =>
          t2.id ≠ 0 ∧ t2.id = ({ renderCronjob pn pt prod t with id := t.id } : Cronjob).id)).getLast?
          = none := by
        rw [← hid] at *
        exact hl
      rw [hl2, getLast?_cons_match, hl]
      simp [hid]
    · have hl2 : (rest.filter (fun t2 =>
          t2.id ≠ 0 ∧ t2.id = ({ renderCronjob pn pt prod t with id := t.id } : Cronjob).id)).getLast?
          = some t2 := by
        rw [← hid] at *
        exact hl
      rw [hl2, getLast?_cons_match, hl]
      simp [hid]
  · rw [if_neg hid]
    rw [applyUpdates, applyUpdates, List.filter_cons,
      if_neg (by simp; intro _; exact fun h2 => hid h2.symm)]

theorem applyUpdates_cons_zero (pn pt prod : String) (t : ScheduleItem)
    (rest : List ScheduleItem) (r : Cronjob) (ht : t.id = 0) :
    applyUpdates pn pt prod (t :: rest) r = applyUpdates pn pt prod rest r := by
  rw [applyUpdates, applyUpdates, List.filter_cons, if_neg (by simp [ht])]

theorem updateCronjob_foldl (pn pt prod : String) :
    ∀ (schedule : List ScheduleItem) (ids0 : List Nat) (st0 : CronStore),
    ids0.Nodup →
    (∀ t ∈ schedule, t.id ≠ 0 → t.id < st0.nextID) →
    schedule.foldl (updateCronjobStep pn pt prod) (ids0, st0) =
      (ids0.filter (fun x => x ∉ submittedIds schedule),
       { records := st0.records.map (applyUpdates pn pt prod schedule) ++
           createdList pn pt prod st0.nextID schedule,
         nextID := st0.nextID + (zeroItems schedule).length }) := by
  intro schedule
  induction schedule with
  | nil =>
    intro ids0 st0 _ _
    simp only [List.foldl_nil, submittedIds, zeroItems, List.filter_nil, List.map_nil,
      List.length_nil, Nat.add_zero, createdList, List.append_nil]
    refine Prod.ext ?_ ?_
    · simp [submittedIds]
    · have hmap : st0.records.map (applyUpdates pn pt prod []) = st0.records := by
        have h2 : ∀ r ∈ st0.records, applyUpdates pn pt prod [] r = id r := fun r _ => rfl
        rw [List.map_congr_left h2, List.map_id]
      simp [hmap]
  | cons t ts ih =>
    intro ids0 st0 h0 hzlt
    rw [List.foldl_cons]
    by_cases ht : t.id = 0
    · -- creation branch
      have hstep : updateCronjobStep pn pt prod (ids0, st0) t =
          (ids0, createCron st0 (renderCronjob pn pt prod t)) := by
        rw [updateCronjobStep, if_neg (by simp [ht])]
      rw [hstep]
      rw [ih ids0 (createCron st0 (renderCronjob pn pt prod t)) h0
        (fun t2 ht2 hz => by
          have := hzlt t2 (List.mem_cons_of_mem t ht2) hz
          simp [createCron]
          omega)]
      refine Prod.ext ?_ ?_
      · apply List.filter_congr
        intro x _
        have : submittedIds (t :: ts) = submittedIds ts := by
          rw [submittedIds, List.filter_cons, if_neg (by simp [ht]), submittedIds]
        rw [this]
      · simp only [createCron]
        have hc0 : applyUpdates pn pt prod ts
            ({ renderCronjob pn pt prod t with id := st0.nextID } : Cronjob) =
            { renderCronjob pn pt prod t with id := st0.nextID } := by
          rw [applyUpdates]
          have : (ts.filter (fun t2 => t2.id ≠ 0 ∧ t2.id =
              ({ renderCronjob pn pt prod t with id := st0.nextID } : Cronjob).id)) = [] := by
            rw [List.filter_eq_nil_iff]
            intro t2 ht2
            simp only [decide_eq_true_eq, not_and]
            intro hz heq
            have := hzlt t2 (List.mem_cons_of_mem t ht2) hz
            have heq2 : t2.id = st0.nextID := heq
            omega
          rw [this]
          rfl
        have hmapeq : st0.records.map (applyUpdates pn pt prod (t :: ts)) =
            st0.records.map (applyUpdates pn pt prod ts) := by
          apply List.map_congr_left
          intro r _
          rw [applyUpdates_cons_zero pn pt prod t ts r ht]
        have hcreated : createdList pn pt prod st0.nextID (t :: ts) =
            { renderCronjob pn pt prod t with id := st0.nextID } ::
              createdList pn pt prod (st0.nextID + 1) ts := by
          rw [createdList, if_pos ht]
        have hzlen : (zeroItems (t :: ts)).length = (zeroItems ts).length + 1 := by
          rw [zeroItems, List.filter_cons, if_pos (by simp [ht]), List.length_cons, zeroItems]
        congr 1
        · simp only [List.map_append, hmapeq, hcreated, List.map_cons, hc0]
          simp
        · simp only [hzlen]
          omega
    · -- in-place update branch
      have hstep : updateCronjobStep pn pt prod (ids0, st0) t =
          (ids0.erase t.id,
           updateCron st0 { renderCronjob pn pt prod t with id := t.id }) := by
        rw [updateCronjobStep, if_pos (by simp [ht])]
      rw [hstep]
      rw [ih (ids0.erase t.id) (updateCron st0 { renderCronjob pn pt prod t with id := t.id })
        (h0.erase t.id)
        (fun t2 ht2 hz => hzlt t2 (List.mem_cons_of_mem t ht2) hz)]
      refine Prod.ext ?_ ?_
      · simp only []
        rw [List.Nodup.erase_eq_filter h0, List.filter_filter]
        apply List.filter_congr
        intro x _
        have hsub : submittedIds (t :: ts) = t.id :: submittedIds ts := by
          rw [submittedIds, List.filter_cons, if_pos (by simp [ht]), List.map_cons, submittedIds]
        rw [hsub]
        simp only [List.mem_cons, not_or, decide_eq_true_eq]
        by_cases hx1 : x ∈ submittedIds ts <;> by_cases hx2 : x = t.id <;>
          simp [hx1, hx2, bne]
      · simp only [updateCron]
        congr 1
        · simp only [List.map_map]
          have hcreated : createdList pn pt prod st0.nextID (t :: ts) =
              createdList pn pt prod st0.nextID ts := by
            rw [createdList, if_neg ht]
          rw [hcreated]
          have hmapeq : st0.records.map
              ((applyUpdates pn pt prod ts) ∘
                (fun r => if r.id = ({ renderCronjob pn pt prod t with id := t.id } : Cronjob).id
                  then { renderCronjob pn pt prod t with id := t.id } else r)) =
              st0.records.map (applyUpdates pn pt prod (t :: ts)) := by
            apply List.map_congr_left
            intro r _
            simp only [Function.comp]
            exact applyUpdates_cons_nonzero pn pt prod t ts r ht
          rw [hmapeq]
        · have hzlen2 : zeroItems (t :: ts) = zeroItems ts := by
            rw [zeroItems, List.filter_cons, if_neg (by simp [ht]), zeroItems]
          rw [hzlen2]

theorem filter_map_eq_filterMap {α β : Type} (g : α → β) (p : β → Bool)
    (q : α → Prop) [DecidablePred q] (l : List α)
    (h : ∀ r ∈ l, (p (g r) = true ↔ ¬ q r)) :
    (l.map g).filter p = l.filterMap (fun r => if q r then none else some (g r)) := by
  induction l with
  | nil => rfl
  | cons r rs ih =>
    rw [List.map_cons, List.filter_cons, List.filterMap_cons]
    by_cases hq : q r
    · have hp : ¬ p (g r) = true := fun hp => (h r (List.mem_cons_self r rs)).mp hp hq
      rw [if_neg hp, if_pos hq]
      exact ih (fun r2 h2 => h r2 (List.mem_cons_of_mem r h2))
    · have hp : p (g r) = true := (h r (List.mem_cons_self r rs)).mpr hq
      rw [if_pos hp, if_neg hq]
      rw [ih (fun r2 h2 => h r2 (List.mem_cons_of_mem r h2))]

/-- **C3.**  `UpdateCronjob` reconciles the stored records of a
(parentName, parentType): every submitted item with a non-zero ID replaces
the stored record with that ID in place, every submitted item without an ID
creates a new record with a fresh ID, every stored record of the parent whose
ID matches no submitted item is deleted (records of other parents are kept),
and the returned delete list holds exactly the deleted IDs.  (Stated for a
store with pairwise-distinct document IDs all below the fresh-ID counter, and
submitted non-zero IDs that do belong to stored records of the parent.) -/
theorem updateCronjob_spec (pn pt prod : String) (schedule : List ScheduleItem)
    (st : CronStore)
    (hNodupRec : (st.records.map (fun r => r.id)).Nodup)
    (hFresh : ∀ r ∈ st.records, r.id < st.nextID)
    (hSub : ∀ t ∈ schedule, t.id ≠ 0 →
      t.id ∈ (listCron st pn pt).map (fun r => r.id)) :
    (∀ x, x ∈ (updateCronjob pn pt prod schedule st).1 ↔
      x ∈ (listCron st pn pt).map (fun r => r.id) ∧ x ∉ submittedIds schedule) ∧
    (updateCronjob pn pt prod schedule st).2.records =
      st.records.filterMap (fun r =>
        if r.name = pn ∧ r.parentType = pt ∧ r.id ∉ submittedIds schedule then none
        else some (applyUpdates pn pt prod schedule r)) ++
      createdList pn pt prod st.nextID schedule := by
  have hidnodup : ((listCron st pn pt).map (fun r => r.id)).Nodup :=
    List.Sublist.nodup (List.Sublist.map _ (List.filter_sublist st.records)) hNodupRec
  have hZero : ∀ t ∈ schedule, t.id ≠ 0 → t.id < st.nextID := by
    intro t ht hz
    obtain ⟨r, hr, hre⟩ := List.mem_map.mp (hSub t ht hz)
    exact hre ▸ hFresh r (List.mem_of_mem_filter hr)
  have hfold := updateCronjob_foldl pn pt prod schedule
    ((listCron st pn pt).map (fun r => r.id)) st hidnodup hZero
  have hfold2 : updateCronjobFold pn pt prod schedule st =
      (((listCron st pn pt).map (fun r => r.id)).filter
          (fun x => x ∉ submittedIds schedule),
       { records := st.records.map (applyUpdates pn pt prod schedule) ++
           createdList pn pt prod st.nextID schedule,
         nextID := st.nextID + (zeroItems schedule).length }) := by
    rw [updateCronjobFold]
    exact hfold
  have hmem_idmap : ∀ r ∈ st.records,
      (r.id ∈ (listCron st pn pt).map (fun r2 => r2.id) ↔
        (r.name = pn ∧ r.parentType = pt)) := by
    intro r hr
    constructor
    · intro hm
      obtain ⟨r2, hr2, hre⟩ := List.mem_map.mp hm
      have hr2rec : r2 ∈ st.records := List.mem_of_mem_filter hr2
      have hr2eq : r2 = r := List.inj_on_of_nodup_map hNodupRec hr2rec hr hre
      have := List.of_mem_filter hr2
      rw [hr2eq] at this
      simpa using this
    · intro hpq
      exact List.mem_map_of_mem _ (List.mem_filter.mpr ⟨hr, by simpa using hpq⟩)
  constructor
  · intro x
    rw [updateCronjob, hfold2]
    simp only [List.mem_filter, decide_eq_true_eq]
  · rw [updateCronjob, hfold2]
    simp only [deleteCron, List.filter_append]
    have hcreatedkeep : (createdList pn pt prod st.nextID schedule).filter
        (fun r => r.id ∉ ((listCron st pn pt).map (fun r2 => r2.id)).filter
          (fun x => x ∉ submittedIds schedule)) =
        createdList pn pt prod st.nextID schedule := by
      rw [List.filter_eq_self]
      intro c hc
      simp only [decide_eq_true_eq]
      intro hmem
      have hcle := createdList_id_le pn pt prod schedule st.nextID c hc
      have : c.id ∈ (listCron st pn pt).map (fun r2 => r2.id) :=
        List.mem_of_mem_filter hmem
      obtain ⟨r2, hr2, hre⟩ := List.mem_map.mp this
      have := hFresh r2 (List.mem_of_mem_filter hr2)
      omega
    rw [hcreatedkeep]
    have hmapfilter : (st.records.map (applyUpdates pn pt prod schedule)).filter
        (fun r => r.id ∉ ((listCron st pn pt).map (fun r2 => r2.id)).filter
          (fun x => x ∉ submittedIds schedule)) =
        st.records.filterMap (fun r =>
          if r.name = pn ∧ r.parentType = pt ∧ r.id ∉ submittedIds schedule then none
          else some (applyUpdates pn pt prod schedule r)) := by
      apply filter_map_eq_filterMap
      intro r hr
      rw [applyUpdates_id]
      simp only [decide_eq_true_eq]
      refine not_congr ?_
      rw [List.mem_filter]
      simp only [decide_eq_true_eq]
      rw [hmem_idmap r hr]
      tauto
    rw [hmapfilter]

/-- Stored record A of the C3 scenario. -/
def c3recA : Cronjob :=
  { id := 1, name := "wf", parentType := "workflow", number := 1, frequency := "day",
    time := "10:00", cron := "", maxFailure := 0, taskArgs := "", workflowArgs := "wa",
    testArgs := "", jobType := "workflow", enabled := true, productName := "" }

/-- Stored record B of the C3 scenario. -/
def c3recB : Cronjob := { c3recA with id := 2, time := "11:00" }

/-- The store of the C3 scenario: records {A, B}, next fresh ID 3. -/
def c3store : CronStore := { records := [c3recA, c3recB], nextID := 3 }

/-- Submitted item A (unchanged, carrying A's ID). -/
def c3itemA : ScheduleItem :=
  { id := 1, number := 1, frequency := "day", time := "10:00", cron := "",
    maxFailures := 0, taskArgs := "", workflowArgs := "wa", testArgs := "",
    itemType := "workflow" }

/-- Submitted item C (new, without an ID). -/
def c3itemC : ScheduleItem := { c3itemA with id := 0, time := "12:00" }

/-- Witness for C3, at the claim's scenario: stored {A, B}, submitted
{A (with ID), C (no ID)} — one update (A), one create (C), one delete (B),
and the delete list holds exactly B's ID. -/
theorem updateCronjob_spec_witness :
    ((2 ∈ (updateCronjob "wf" "workflow" "" [c3itemA, c3itemC] c3store).1 ↔
       2 ∈ (listCron c3store "wf" "workflow").map (fun r => r.id) ∧
         2 ∉ submittedIds [c3itemA, c3itemC]) ∧
     (updateCronjob "wf" "workflow" "" [c3itemA, c3itemC] c3store).2.records =
       c3store.records.filterMap (fun r =>
         if r.name = "wf" ∧ r.parentType = "workflow" ∧
             r.id ∉ submittedIds [c3itemA, c3itemC] then none
         else some (applyUpdates "wf" "workflow" "" [c3itemA, c3itemC] r)) ++
       createdList "wf" "workflow" "" c3store.nextID [c3itemA, c3itemC]) ∧
    (updateCronjob "wf" "workflow" "" [c3itemA, c3itemC] c3store).1 = [2] := by
  have h := updateCronjob_spec "wf" "workflow" "" [c3itemA, c3itemC] c3store
    (by decide) (by decide) (by decide)
  exact ⟨⟨h.1 2, h.2⟩, by decide⟩

/-! ## Claims about `SetPreset` idempotence -/

theorem filter_key_map_singleton {α γ : Type} (kA : α → String) (kC : γ → String)
    (f : α → γ) (p : γ → Bool) (o : α)
    (hk : ∀ x, kC (f x) = kA x)
    (hp : ∀ y, p y = true ↔ kC y = kA o) :
    ∀ (l : List α), (l.map kA).Nodup → o ∈ l → (l.map f).filter p = [f o] := by
  intro l
  induction l with
  | nil =>
    intro _ ho
    simp at ho
  | cons a as ih =>
    intro hnd ho
    rw [List.map_cons, List.nodup_cons] at hnd
    rw [List.map_cons, List.filter_cons]
    rcases List.mem_cons.mp ho with rfl | hmem
    · rw [if_pos ((hp (f o)).mpr (hk o))]
      have hnil : (as.map f).filter p = [] := by
        rw [List.filter_eq_nil_iff]
        intro y hy
        obtain ⟨x, hx, rfl⟩ := List.mem_map.mp hy
        intro hpy
        have hke := (hp (f x)).mp hpy
        rw [hk x] at hke
        exact hnd.1 (hke ▸ List.mem_map_of_mem kA hx)
      rw [hnil]
    · have hne : ¬ p (f a) = true := by
        intro hpy
        have hke := (hp (f a)).mp hpy
        rw [hk a] at hke
        exact hnd.1 (hke ▸ List.mem_map_of_mem kA hmem)
      rw [if_neg hne]
      exact ih hnd.2 hmem

theorem renderKeyValEntry_key (input : List KeyVal) (o : KeyVal) :
    (renderKeyValEntry input o).key = o.key := by
  rw [renderKeyValEntry]
  split <;> rfl

theorem renderKeyVals_idem (input origin : List KeyVal)
    (hnd : (origin.map (fun kv => kv.key)).Nodup) :
    renderKeyVals (renderKeyVals input origin) origin = renderKeyVals input origin := by
  rw [show renderKeyVals (renderKeyVals input origin) origin =
      origin.map (renderKeyValEntry (origin.map (renderKeyValEntry input))) from rfl,
    show renderKeyVals input origin = origin.map (renderKeyValEntry input) from rfl]
  apply List.map_congr_left
  intro o ho
  have hsingle : ((origin.map (renderKeyValEntry input)).filter
      (fun inputKV => o.key = inputKV.key)) = [renderKeyValEntry input o] :=
    filter_key_map_singleton (fun kv => kv.key) (fun kv => kv.key)
      (renderKeyValEntry input) _ o (renderKeyValEntry_key input)
      (fun y => by simp [eq_comm]) origin hnd ho
  rw [renderKeyValEntry, hsingle]
  simp only [List.getLast?_singleton]
  rw [renderKeyValEntry]
  split <;> rfl

theorem normInv_norm (r : Repository) :
    (normalizeNamespace r).repoNamespace = (normalizeNamespace r).repoOwner ∨
      (normalizeNamespace r).repoNamespace ≠ "" := by
  rw [normalizeNamespace]
  by_cases h : r.repoNamespace = ""
  · rw [if_pos h]
    exact Or.inl rfl
  · rw [if_neg h]
    exact Or.inr h

theorem norm_fix (x : Repository)
    (h : x.repoNamespace = x.repoOwner ∨ x.repoNamespace ≠ "") :
    normalizeNamespace x = x := by
  rw [normalizeNamespace]
  by_cases h2 : x.repoNamespace = ""
  · rw [if_pos h2]
    rcases h with h | h
    · cases x
      simp_all
    · exact absurd h2 h
  · rw [if_neg h2]

theorem getNamespace_norm (r : Repository) :
    (normalizeNamespace r).getNamespace = (normalizeNamespace r).repoNamespace := by
  rw [Repository.getNamespace]
  by_cases h : (normalizeNamespace r).repoNamespace = ""
  · rw [if_neg (by simpa using h)]
    rcases normInv_norm r with h2 | h2
    · rw [h, h2.symm, h]
    · exact absurd h h2
  · rw [if_pos (by simpa using h)]

theorem mergeRepoEntry_normInv (cs : List Repository) (r0 : Repository) :
    (mergeRepoEntry cs r0).repoNamespace = (mergeRepoEntry cs r0).repoOwner ∨
      (mergeRepoEntry cs r0).repoNamespace ≠ "" := by
  rw [mergeRepoEntry]
  split <;> exact normInv_norm r0

theorem mergeRepoEntry_key (cs : List Repository) (r0 : Repository) :
    repoMergeKey (mergeRepoEntry cs r0) = repoMergeKey (normalizeNamespace r0) := by
  rw [mergeRepoEntry]
  split <;> rfl

theorem mergeRepos_idem (r c : List Repository)
    (hnd : (r.map (fun x => repoMergeKey (normalizeNamespace x))).Nodup) :
    mergeRepos r (mergeRepos r c) = mergeRepos r c := by
  rw [show mergeRepos r (mergeRepos r c) =
      r.map (mergeRepoEntry ((r.map (mergeRepoEntry
        (c.map normalizeNamespace))).map normalizeNamespace)) from rfl,
    show mergeRepos r c = r.map (mergeRepoEntry (c.map normalizeNamespace)) from rfl]
  have hnormed : ((r.map (mergeRepoEntry (c.map normalizeNamespace))).map
      normalizeNamespace) = r.map (mergeRepoEntry (c.map normalizeNamespace)) := by
    rw [List.map_map]
    apply List.map_congr_left
    intro x _
    exact norm_fix _ (mergeRepoEntry_normInv _ x)
  rw [hnormed]
  apply List.map_congr_left
  intro r0 hr0
  have hsingle : ((r.map (mergeRepoEntry (c.map normalizeNamespace))).filter
      (fun c2 => repoMergeKey c2 = joinSlash [(normalizeNamespace r0).source,
        (normalizeNamespace r0).getNamespace,
        (normalizeNamespace r0).repoName])) =
      [mergeRepoEntry (c.map normalizeNamespace) r0] := by
    apply filter_key_map_singleton (fun x => repoMergeKey (normalizeNamespace x))
      repoMergeKey (mergeRepoEntry (c.map normalizeNamespace)) _ r0
      (mergeRepoEntry_key (c.map normalizeNamespace)) _ r hnd hr0
    intro y
    rw [show joinSlash [(normalizeNamespace r0).source,
        (normalizeNamespace r0).getNamespace, (normalizeNamespace r0).repoName] =
      repoMergeKey (normalizeNamespace r0) from by
        rw [repoMergeKey, getNamespace_norm]]
    simp
  rw [show mergeRepoEntry ((r.map (mergeRepoEntry (c.map normalizeNamespace))))
      r0 = (match ((r.map (mergeRepoEntry (c.map normalizeNamespace))).filter
        (fun c2 => repoMergeKey c2 = joinSlash [(normalizeNamespace r0).source,
          (normalizeNamespace r0).getNamespace,
          (normalizeNamespace r0).repoName])).getLast? with
      | some cv =>
        { normalizeNamespace r0 with
          branch := cv.branch, tag := cv.tag, pr := cv.pr, prs := cv.prs,
          filterRegexp := cv.filterRegexp }
      | none => normalizeNamespace r0) from rfl]
  rw [hsingle]
  simp only [List.getLast?_singleton]
  rw [mergeRepoEntry]
  split <;> rfl

theorem presetMerge_serviceName (b : Build) (e : ServiceAndBuild) :
    (presetMerge b e).serviceName = e.serviceName := by
  rw [presetMerge]
  split <;> rfl

theorem presetMerge_serviceModule (b : Build) (e : ServiceAndBuild) :
    (presetMerge b e).serviceModule = e.serviceModule := by
  rw [presetMerge]
  split <;> rfl

theorem presetMerge_buildName (b : Build) (e : ServiceAndBuild) :
    (presetMerge b e).buildName = e.buildName := by
  rw [presetMerge]
  split <;> rfl

/-- The build configuration `SetPreset` effectively uses for one selected
entry: the `buildMap` lookup followed by `fillBuildDetail`; `none` when the
entry is skipped before the merge step. -/
def effectiveBuild (cat : Catalog) (e : ServiceAndBuild) : Option Build :=
  match cat.findBuild e.buildName with
  | none => none
  | some b0 =>
    match fillBuildDetail cat b0 e.serviceName e.serviceModule with
    | .error _ => none
    | .ok b => some b

/-- An entry whose effective build carries no duplicate env keys and no
duplicate repository merge keys; duplicate keys are exactly what makes the
render/merge passes of `SetPreset` non-idempotent. -/
def goodEntry (cat : Catalog) (e : ServiceAndBuild) : Bool :=
  match effectiveBuild cat e with
  | none => true
  | some b =>
    decide (b.preBuild.envs.map (fun kv => kv.key)).Nodup &&
      decide (b.repos.map (fun x => repoMergeKey (normalizeNamespace x))).Nodup

theorem filterMap_fixed {α : Type} (f : α → Option α) (l : List α)
    (h : ∀ x ∈ l, f x = some x) : l.filterMap f = l := by
  induction l with
  | nil => rfl
  | cons a as ih =>
    rw [List.filterMap_cons, h a (List.mem_cons_self a as),
      ih (fun x hx => h x (List.mem_cons_of_mem a hx))]

theorem setPresetEntry_idem (cat : Catalog) (smap : String → Option ServiceInfo)
    (e e1 : ServiceAndBuild) (hg : goodEntry cat e = true)
    (h : setPresetEntry cat smap e = some e1) :
    setPresetEntry cat smap e1 = some e1 := by
  have h1 : (match cat.findBuild e.buildName with
      | none => none
      | some buildInfo0 =>
        match fillBuildDetail cat buildInfo0 e.serviceName e.serviceModule with
        | .error _ => none
        | .ok buildInfo => presetImageName smap (presetMerge buildInfo e)) = some e1 := h
  rcases hb : cat.findBuild e.buildName with _ | b0
  · rw [hb] at h1
    simp at h1
  rw [hb] at h1
  have h2 : (match fillBuildDetail cat b0 e.serviceName e.serviceModule with
      | .error _ => none
      | .ok buildInfo => presetImageName smap (presetMerge buildInfo e)) = some e1 := h1
  rcases hf : fillBuildDetail cat b0 e.serviceName e.serviceModule with msg | b
  · rw [hf] at h2
    simp at h2
  rw [hf] at h2
  have h3 : presetImageName smap (presetMerge b e) = some e1 := h2
  have h4 : (match smap (presetMerge b e).serviceName with
      | none => none
      | some svc => some ({ presetMerge b e with
          imageName := resolvedImageName svc (presetMerge b e).serviceModule })) =
      some e1 := h3
  rcases hs : smap (presetMerge b e).serviceName with _ | svc
  · rw [hs] at h4
    simp at h4
  rw [hs] at h4
  have h5 : some ({ presetMerge b e with
      imageName := resolvedImageName svc (presetMerge b e).serviceModule }) =
      some e1 := h4
  have he1 : e1 = { presetMerge b e with
      imageName := resolvedImageName svc (presetMerge b e).serviceModule } :=
    (Option.some.inj h5).symm
  have hsn : e1.serviceName = e.serviceName := by
    rw [he1]
    exact presetMerge_serviceName b e
  have hsm2 : e1.serviceModule = e.serviceModule := by
    rw [he1]
    exact presetMerge_serviceModule b e
  have hbn : e1.buildName = e.buildName := by
    rw [he1]
    exact presetMerge_buildName b e
  have hrp : e1.repos = (presetMerge b e).repos := by
    rw [he1]
  have hkv : e1.keyVals = (presetMerge b e).keyVals := by
    rw [he1]
  have him : e1.imageName = resolvedImageName svc (presetMerge b e).serviceModule := by
    rw [he1]
  have heff : effectiveBuild cat e = some b := by
    show (match cat.findBuild e.buildName with
      | none => none
      | some b2 =>
        match fillBuildDetail cat b2 e.serviceName e.serviceModule with
        | .error _ => none
        | .ok b3 => some b3) = some b
    rw [hb]
    show (match fillBuildDetail cat b0 e.serviceName e.serviceModule with
      | .error _ => none
      | .ok b3 => some b3) = some b
    rw [hf]
  have hgb : (b.preBuild.envs.map (fun kv => kv.key)).Nodup ∧
      (b.repos.map (fun x => repoMergeKey (normalizeNamespace x))).Nodup := by
    have hg2 : (match effectiveBuild cat e with
        | none => true
        | some b2 =>
          decide (b2.preBuild.envs.map (fun kv => kv.key)).Nodup &&
            decide (b2.repos.map (fun x =>
              repoMergeKey (normalizeNamespace x))).Nodup) = true := hg
    rw [heff] at hg2
    have hg3 : (decide (b.preBuild.envs.map (fun kv => kv.key)).Nodup &&
        decide (b.repos.map (fun x =>
          repoMergeKey (normalizeNamespace x))).Nodup) = true := hg2
    simp at hg3
    exact hg3
  show (match cat.findBuild e1.buildName with
      | none => none
      | some buildInfo0 =>
        match fillBuildDetail cat buildInfo0 e1.serviceName e1.serviceModule with
        | .error _ => none
        | .ok buildInfo => presetImageName smap (presetMerge buildInfo e1)) = some e1
  rw [hbn, hb]
  show (match fillBuildDetail cat b0 e1.serviceName e1.serviceModule with
      | .error _ => none
      | .ok buildInfo => presetImageName smap (presetMerge buildInfo e1)) = some e1
  rw [hsn, hsm2, hf]
  show presetImageName smap (presetMerge b e1) = some e1
  have hcond : (b.targets.any (fun t =>
      t.serviceName = e1.serviceName ∧ t.serviceModule = e1.serviceModule)) =
    (b.targets.any (fun t =>
      t.serviceName = e.serviceName ∧ t.serviceModule = e.serviceModule)) := by
    rw [hsn, hsm2]
  have hpm : presetMerge b e1 = e1 := by
    rw [presetMerge, hcond]
    by_cases hc : b.targets.any (fun t =>
        t.serviceName = e.serviceName ∧ t.serviceModule = e.serviceModule) = true
    · rw [if_pos hc]
      have hrp2 : mergeRepos b.repos e1.repos = e1.repos := by
        rw [hrp, show (presetMerge b e).repos = mergeRepos b.repos e.repos from by
          rw [presetMerge, if_pos hc]]
        exact mergeRepos_idem _ _ hgb.2
      have hkv2 : renderKeyVals e1.keyVals b.preBuild.envs = e1.keyVals := by
        rw [hkv, show (presetMerge b e).keyVals =
            renderKeyVals e.keyVals b.preBuild.envs from by
          rw [presetMerge, if_pos hc]]
        exact renderKeyVals_idem _ _ hgb.1
      rw [hrp2, hkv2]
    · rw [if_neg hc]
  rw [hpm]
  show (match smap e1.serviceName with
      | none => none
      | some svc2 => some ({ e1 with
          imageName := resolvedImageName svc2 e1.serviceModule })) = some e1
  have hs2 : smap e1.serviceName = some svc := by
    rw [hsn, ← presetMerge_serviceName b e]
    exact hs
  rw [hs2]
  show some ({ e1 with imageName := resolvedImageName svc e1.serviceModule }) = some e1
  have him2 : resolvedImageName svc e1.serviceModule = e1.imageName := by
    rw [hsm2, him, presetMerge_serviceModule]
  rw [him2]

/-- **C8** (amended).  `SetPreset` applied a second time on its own output,
with an unchanged catalog, returns that output unchanged — i.e. twice equals
once — provided every selected entry's effective build configuration carries
no duplicate env keys and no duplicate repository merge keys.  (With
duplicate keys the render/merge passes are not idempotent; see the
counterexample.) -/
theorem setPreset_idem (cat : Catalog) (spec spec1 : BuildJobSpec)
    (hg : ∀ e ∈ spec.serviceAndBuilds, goodEntry cat e = true)
    (h : setPreset cat spec = Except.ok spec1) :
    setPreset cat spec1 = Except.ok spec1 := by
  have h1 : (match cat.servicesMap with
      | none => Except.error "get services map error"
      | some smap => Except.ok { spec with
          serviceAndBuilds := spec.serviceAndBuilds.filterMap (setPresetEntry cat smap) }) =
      Except.ok spec1 := h
  rcases hsm : cat.servicesMap with _ | smap
  · rw [hsm] at h1
    simp at h1
  rw [hsm] at h1
  have h2 : Except.ok { spec with
      serviceAndBuilds := spec.serviceAndBuilds.filterMap (setPresetEntry cat smap) } =
      Except.ok spec1 := h1
  have hspec1 : spec1 = { spec with
      serviceAndBuilds := spec.serviceAndBuilds.filterMap (setPresetEntry cat smap) } :=
    (Except.ok.inj h2).symm
  show (match cat.servicesMap with
      | none => Except.error "get services map error"
      | some smap2 => Except.ok { spec1 with
          serviceAndBuilds := spec1.serviceAndBuilds.filterMap (setPresetEntry cat smap2) }) =
      Except.ok spec1
  rw [hsm]
  show Except.ok { spec1 with
      serviceAndBuilds := spec1.serviceAndBuilds.filterMap (setPresetEntry cat smap) } =
      Except.ok spec1
  have hfix : spec1.serviceAndBuilds.filterMap (setPresetEntry cat smap) =
      spec1.serviceAndBuilds := by
    apply filterMap_fixed
    intro x hx
    have hx2 : x ∈ spec.serviceAndBuilds.filterMap (setPresetEntry cat smap) := by
      rw [hspec1] at hx
      exact hx
    obtain ⟨a, ha, hfa⟩ := List.mem_filterMap.mp hx2
    exact setPresetEntry_idem cat smap a x (hg a ha) hfa
  rw [hfix]

def c8kvA : KeyVal :=
  { key := "K", value := "a", type_ := "", isCredential := false, choiceOption := [] }

def c8kvB : KeyVal :=
  { key := "K", value := "b", type_ := "", isCredential := false, choiceOption := [] }

/-- A build whose `PRE_BUILD` envs repeat the key `K` with two values. -/
def c8build : Build :=
  { templateID := "", timeout := 0,
    preBuild := { imageID := "", clusterID := "", envs := [c8kvA, c8kvB] },
    postBuild := none, repos := [],
    targets := [{ serviceName := "svc", serviceModule := "mod", repos := [], envs := [] }],
    outputs := [], infrastructure := "", cacheEnable := false,
    cacheDirType := "", cacheUserDir := "" }

def c8cat : Catalog :=
  { findRegistry := fun _ => none, defaultS3 := none,
    findBuild := fun n => if n = "b" then some c8build else none,
    findBuildTemplate := fun _ => none, findBasicImage := fun _ => none,
    listRegistries := none, findCluster := fun _ => none, findS3 := fun _ => none,
    servicesMap := some (fun n =>
      if n = "svc" then some { serviceName := "svc", containers := [] } else none),
    mergeBuildEnvs := fun a _ => a }

def c8entry : ServiceAndBuild :=
  { serviceName := "svc", serviceModule := "mod", buildName := "b",
    imageName := "", image := "", packageFile := "", keyVals := [], repos := [] }

def c8spec : BuildJobSpec := { dockerRegistryID := "", serviceAndBuilds := [c8entry] }

/-- **C8** counterexample: with duplicate env keys in the referenced build's
`PRE_BUILD` variables, the second `SetPreset` call overlays each `K` entry
with the last matching value of the first call's output, so the two outputs
differ and `SetPreset` is not idempotent as claimed. -/
theorem setPreset_claim_counterexample :
    ∃ spec1 spec2, setPreset c8cat c8spec = Except.ok spec1 ∧
      setPreset c8cat spec1 = Except.ok spec2 ∧ spec1 ≠ spec2 := by
  refine ⟨_, _, rfl, rfl, ?_⟩
  decide

/-- The duplicate-free variant of the counterexample's build and catalog. -/
def c8wbuild : Build :=
  { c8build with preBuild := { imageID := "", clusterID := "", envs := [c8kvA] } }

def c8wcat : Catalog :=
  { c8cat with findBuild := fun n => if n = "b" then some c8wbuild else none }

/-- Witness for the amended C8 theorem at a concrete duplicate-free catalog. -/
theorem setPreset_idem_witness :
    ∃ spec1, setPreset c8wcat c8spec = Except.ok spec1 ∧
      setPreset c8wcat spec1 = Except.ok spec1 := by
  refine ⟨_, rfl, setPreset_idem c8wcat c8spec _ ?_ rfl⟩
  decide
